import Mathlib

/-!
Verification of the rrule recurrence-rule property parser (the crate's
`parser/content_line/rule_content_line.rs`) against its natural-language
specification.  Rust strings are embedded as `List Char`; the key-value
property map is a function `RRuleProperty → Option Str`; fallible parsing
returns `Except ParseError`.  Definitions translated from the Rust source
keep its names (camel-cased).  Helpers whose source is outside the provided
files (the value-string splitter, the element-list parser, the timezone and
datetime parsers, the renderer, the expansion engine) are modelled from the
specification and say so in their doc comments.
-/

namespace RRuleSpec

/-- Rust strings embedded as lists of characters. -/
abbrev Str := List Char

/-- Character list of a Lean string literal, used to write embedded Rust
string constants. -/
def str (s : String) : Str := s.data

/-- ASCII upper-casing of one character, as Rust's `to_uppercase` acts on
the ASCII keys and vocabulary words the parser compares against. -/
def asciiUpper (c : Char) : Char :=
  if 'a' ≤ c ∧ c ≤ 'z' then Char.ofNat (c.toNat - 32) else c

/-- Rust `s.to_uppercase()` on an embedded string. -/
def upper (s : Str) : Str := s.map asciiUpper

/-- Numeric value of a decimal digit character, `none` otherwise. -/
def parseDigit (c : Char) : Option Nat :=
  if '0' ≤ c ∧ c ≤ '9' then some (c.toNat - 48) else none

/-- Accumulating loop of decimal-number parsing. -/
def parseUIntAux : Nat → Str → Option Nat
  | acc, [] => some acc
  | acc, c :: cs =>
    match parseDigit c with
    | some d => parseUIntAux (acc * 10 + d) cs
    | none => none

/-- Parse a non-empty all-digit string as a natural number (the unsigned
integer grammar shared by the numeric fields). -/
def parseUInt : Str → Option Nat
  | [] => none
  | c :: cs => parseUIntAux 0 (c :: cs)

/-- Parse an optionally signed decimal integer. -/
def parseInt (s : Str) : Option Int :=
  match s with
  | [] => none
  | c :: rest =>
    if c = '-' then (parseUInt rest).map (fun n => -(Int.ofNat n))
    else if c = '+' then (parseUInt rest).map Int.ofNat
    else (parseUInt (c :: rest)).map Int.ofNat

/-- Modelled from the spec: the interval field's numeric type is a
positive integer (the `RRule` struct declaration is not among the provided
sources; the data model table fixes `interval` as a positive integer). -/
def parsePosNat (s : Str) : Option Nat :=
  match parseUInt s with
  | some n => if n = 0 then none else some n
  | none => none

/-- Rust `s.split(sep)`: split a string at every occurrence of a
character; splitting the empty string yields one empty piece. -/
def splitOnChar (sep : Char) : Str → List Str
  | [] => [[]]
  | c :: cs =>
    if c = sep then [] :: splitOnChar sep cs
    else
      match splitOnChar sep cs with
      | [] => [[c]]
      | p :: ps => (c :: p) :: ps

/-- Split a `KEY=VALUE` piece at its first `=`; a piece without `=` is all
key with an empty value. -/
def splitKeyValue (piece : Str) : Str × Str :=
  match piece with
  | [] => ([], [])
  | c :: cs =>
    if c = '=' then ([], cs)
    else
      let (k, v) := splitKeyValue cs
      (c :: k, v)

/-- The recurrence frequencies, from the crate's `Frequency` enum. -/
inductive Frequency
  | yearly | monthly | weekly | daily | hourly | minutely | secondly
  deriving DecidableEq, Repr

/-- Weekdays, embedding `chrono::Weekday`. -/
inductive Wday
  | mon | tue | wed | thu | fri | sat | sun
  deriving DecidableEq, Repr

/-- Modelled from the spec: the timezone handles reachable through the
Timezone Resolver (the IANA database lookup is an external collaborator;
the zones exercised by the crate's tests stand in for the full table). -/
inductive Tz
  | utc | americaNewYork | europeLondon | asiaTokyo
  deriving DecidableEq, Repr

/-- IANA name of a modelled timezone handle. -/
def tzName : Tz → Str
  | .utc => str "UTC"
  | .americaNewYork => str "America/New_York"
  | .europeLondon => str "Europe/London"
  | .asiaTokyo => str "Asia/Tokyo"

/-- The parser's typed error values, from the crate's `ParseError` enum;
each data-carrying constructor holds the offending raw text. -/
inductive ParseError
  | unrecognizedParameter (raw : Str)
  | propertyParametersNotSupported (raw : Str)
  | missingProperty (name : Str)
  | invalidFrequency (raw : Str)
  | invalidInterval (raw : Str)
  | invalidCount (raw : Str)
  | invalidTimezone (raw : Str)
  | invalidDateTime (raw : Str) (property : Str)
  | invalidWeekdayStart (raw : Str)
  | invalidBySetPos (raw : Str)
  | invalidByMonth (raw : Str)
  | invalidByMonthDay (raw : Str)
  | invalidByYearDay (raw : Str)
  | invalidByWeekNo (raw : Str)
  | invalidWeekday (raw : Str)
  | invalidByHour (raw : Str)
  | invalidByMinute (raw : Str)
  | invalidBySecond (raw : Str)
  | invalidByEaster (raw : Str)
  | invalidXIncludeDtstart (raw : Str)
  deriving DecidableEq, Repr

/-- The recognized property keys, from the source's `RRuleProperty` enum
(the optional-feature key `BYEASTER` is taken as enabled). -/
inductive RRuleProperty
  | freq | until | count | interval
  | bySecond | byMinute | byHour | byDay
  | byMonthDay | byYearDay | byWeekNo | byMonth
  | bySetPos | wkst | byEaster | xIncludeDtstart | localTzid
  deriving DecidableEq, Repr

/-- The match arms of the source's `RRuleProperty::from_str`: the
upper-cased key against the fixed vocabulary (`BYWEEKDAY` and `BYDAY` are
synonyms for the same field). -/
def RRuleProperty.fromUpper (u : Str) : Option RRuleProperty :=
  if u = str "FREQ" then some .freq
  else if u = str "UNTIL" then some .until
  else if u = str "COUNT" then some .count
  else if u = str "INTERVAL" then some .interval
  else if u = str "BYSECOND" then some .bySecond
  else if u = str "BYMINUTE" then some .byMinute
  else if u = str "BYHOUR" then some .byHour
  else if u = str "BYWEEKDAY" ∨ u = str "BYDAY" then some .byDay
  else if u = str "BYMONTHDAY" then some .byMonthDay
  else if u = str "BYYEARDAY" then some .byYearDay
  else if u = str "BYWEEKNO" then some .byWeekNo
  else if u = str "BYMONTH" then some .byMonth
  else if u = str "BYSETPOS" then some .bySetPos
  else if u = str "WKST" then some .wkst
  else if u = str "BYEASTER" then some .byEaster
  else if u = str "X-INCLUDE-DTSTART" then some .xIncludeDtstart
  else if u = str "LOCAL-TZID" then some .localTzid
  else none

/-- Key recognition, from the source's `RRuleProperty::from_str`:
upper-case the key, then match it against the fixed vocabulary; an
unmatched key is `UnrecognizedParameter` carrying the original text. -/
def RRuleProperty.fromStr (s : Str) : Except ParseError RRuleProperty :=
  match RRuleProperty.fromUpper (upper s) with
  | some p => .ok p
  | none => .error (.unrecognizedParameter s)

/-- Modelled from the spec: `Frequency::from_str` (its file is not among
the provided sources) matches the fixed FREQ vocabulary case-insensitively
and reports `InvalidFrequency` with the raw text otherwise. -/
def Frequency.fromStr (s : Str) : Except ParseError Frequency :=
  let u := upper s
  if u = str "YEARLY" then .ok .yearly
  else if u = str "MONTHLY" then .ok .monthly
  else if u = str "WEEKLY" then .ok .weekly
  else if u = str "DAILY" then .ok .daily
  else if u = str "HOURLY" then .ok .hourly
  else if u = str "MINUTELY" then .ok .minutely
  else if u = str "SECONDLY" then .ok .secondly
  else .error (.invalidFrequency s)

/-- Modelled from the spec: `str_to_weekday` (its file is not among the
provided sources) matches the two-letter weekday vocabulary
case-insensitively. -/
def strToWeekday (s : Str) : Option Wday :=
  let u := upper s
  if u = str "MO" then some .mon
  else if u = str "TU" then some .tue
  else if u = str "WE" then some .wed
  else if u = str "TH" then some .thu
  else if u = str "FR" then some .fri
  else if u = str "SA" then some .sat
  else if u = str "SU" then some .sun
  else none

/-- Modelled from the spec: `parse_timezone` (its file is not among the
provided sources) resolves an IANA zone name or `UTC` through the external
timezone database, failing with `InvalidTimezone` on unknown names. -/
def parseTimezone (s : Str) : Except ParseError Tz :=
  if s = str "UTC" then .ok .utc
  else if s = str "America/New_York" then .ok .americaNewYork
  else if s = str "Europe/London" then .ok .europeLondon
  else if s = str "Asia/Tokyo" then .ok .asiaTokyo
  else .error (.invalidTimezone s)

/-- Calendar fields of a parsed datetime value. -/
structure DateTimeFields where
  y : Nat
  m : Nat
  d : Nat
  hh : Nat
  mi : Nat
  ss : Nat
  deriving DecidableEq, Repr

/-- Zone association of a parsed datetime: an explicit UTC marker, the
host's ambient local zone (floating with no LOCAL-TZID), or a resolved
LOCAL-TZID zone. -/
inductive ZoneInfo
  | utcMarked
  | ambient
  | zoned (tz : Tz)
  deriving DecidableEq, Repr

/-- A parsed datetime value: calendar fields plus zone association. -/
structure MDateTime where
  date : DateTimeFields
  zone : ZoneInfo
  deriving DecidableEq, Repr

/-- Combine two digit characters into a two-digit number. -/
def digits2 (a b : Char) : Option Nat := do
  let x ← parseDigit a
  let y ← parseDigit b
  pure (10 * x + y)

/-- Combine four digit characters into a four-digit number. -/
def digits4 (a b c d : Char) : Option Nat := do
  let x ← parseDigit a
  let y ← parseDigit b
  let z ← parseDigit c
  let w ← parseDigit d
  pure (1000 * x + 100 * y + 10 * z + w)

/-- Plausibility check of parsed calendar fields (the concrete datetime
library rejects out-of-range components). -/
def validDate (f : DateTimeFields) : Bool :=
  1 ≤ f.m && f.m ≤ 12 && 1 ≤ f.d && f.d ≤ 31 && f.hh < 24 && f.mi < 60 && f.ss < 60

/-- Raw textual forms accepted for a datetime value: date-only
`YYYYMMDD`, floating `YYYYMMDDTHHMMSS`, and UTC-marked
`YYYYMMDDTHHMMSSZ`; the Boolean records the UTC marker. -/
def parseDatestringRaw (s : Str) : Option (DateTimeFields × Bool) :=
  match s with
  | [y1, y2, y3, y4, m1, m2, d1, d2] =>
    match digits4 y1 y2 y3 y4, digits2 m1 m2, digits2 d1 d2 with
    | some y, some m, some d => some (⟨y, m, d, 0, 0, 0⟩, false)
    | _, _, _ => none
  | [y1, y2, y3, y4, m1, m2, d1, d2, 'T', h1, h2, n1, n2, s1, s2] =>
    match digits4 y1 y2 y3 y4, digits2 m1 m2, digits2 d1 d2,
        digits2 h1 h2, digits2 n1 n2, digits2 s1 s2 with
    | some y, some m, some d, some hh, some mi, some ss =>
      some (⟨y, m, d, hh, mi, ss⟩, false)
    | _, _, _, _, _, _ => none
  | [y1, y2, y3, y4, m1, m2, d1, d2, 'T', h1, h2, n1, n2, s1, s2, 'Z'] =>
    match digits4 y1 y2 y3 y4, digits2 m1 m2, digits2 d1 d2,
        digits2 h1 h2, digits2 n1 n2, digits2 s1 s2 with
    | some y, some m, some d, some hh, some mi, some ss =>
      some (⟨y, m, d, hh, mi, ss⟩, true)
    | _, _, _, _, _, _ => none
  | _ => none

/-- Zone association of a parsed datetime value: an explicit UTC marker
wins; otherwise a floating value takes the resolved LOCAL-TZID zone when
one is given and the host's ambient zone otherwise. -/
def resolveZone (utc : Bool) (localTzid : Option Tz) : ZoneInfo :=
  if utc then .utcMarked
  else
    match localTzid with
    | some z => .zoned z
    | none => .ambient

/-- Modelled from the spec: `datestring_to_date_with_local_tzid` (its file
is not among the provided sources).  Accepts date-only `YYYYMMDD`
(floating, anchored at midnight), floating `YYYYMMDDTHHMMSS`, and explicit
UTC `YYYYMMDDTHHMMSSZ`; a floating value is interpreted in the resolved
LOCAL-TZID zone when one is given and in the host's ambient zone
otherwise; an explicit UTC marker is never altered by LOCAL-TZID. -/
def datestringToDateWithLocalTzid (s : Str) (property : Str)
    (localTzid : Option Tz) : Except ParseError MDateTime :=
  match parseDatestringRaw s with
  | some (f, utc) =>
    if validDate f then .ok ⟨f, resolveZone utc localTzid⟩
    else .error (.invalidDateTime s property)
  | none => .error (.invalidDateTime s property)

/-- A BYDAY element: a weekday, optionally qualified with a signed
ordinal (the crate's `NWeekday`). -/
inductive NWeekday
  | every (w : Wday)
  | nth (n : Int) (w : Wday)
  deriving DecidableEq, Repr

/-- Longest leading run of digit characters of a string, with the rest. -/
def numPrefix : Str → Str × Str
  | [] => ([], [])
  | c :: cs =>
    if '0' ≤ c ∧ c ≤ '9' then
      let (p, r) := numPrefix cs
      (c :: p, r)
    else ([], c :: cs)

/-- Modelled from the spec: one BYDAY token is a weekday token optionally
prefixed with a signed ordinal, as in `2TU` or `-1FR`. -/
def parseOneWeekday (tok : Str) : Option NWeekday :=
  match tok with
  | [] => none
  | c :: rest =>
    if c = '-' then
      if (numPrefix rest).1 = [] then none
      else do
        let n ← parseUInt (numPrefix rest).1
        let w ← strToWeekday (numPrefix rest).2
        pure (.nth (-(Int.ofNat n)) w)
    else if c = '+' then
      if (numPrefix rest).1 = [] then none
      else do
        let n ← parseUInt (numPrefix rest).1
        let w ← strToWeekday (numPrefix rest).2
        pure (.nth (Int.ofNat n) w)
    else
      if (numPrefix (c :: rest)).1 = [] then (strToWeekday (c :: rest)).map .every
      else do
        let n ← parseUInt (numPrefix (c :: rest)).1
        let w ← strToWeekday (numPrefix (c :: rest)).2
        pure (.nth (Int.ofNat n) w)

/-- Traverse a list with a fallible element function, failing the whole
list on the first failing element. -/
def traverseOpt {α β : Type} (f : α → Option β) : List α → Option (List β)
  | [] => some []
  | a :: l =>
    match f a with
    | some b => (traverseOpt f l).map (fun bs => b :: bs)
    | none => none

/-- Modelled from the spec: `parse_weekdays` (its file is not among the
provided sources) parses the comma-separated BYDAY list, failing with the
dedicated weekday-parse error carrying the raw text. -/
def parseWeekdays (s : Str) : Except ParseError (List NWeekday) :=
  match traverseOpt parseOneWeekday (splitOnChar ',' s) with
  | some l => .ok l
  | none => .error (.invalidWeekday s)

/-- Modelled from the spec: `parse_str_to_vec` (its file is not among the
provided sources) splits a value on commas, parses every element, and
checks each against the field's range predicate; any element that fails to
parse or is out of range fails the whole list. -/
def parseStrToVec {α : Type} (pel : Str → Option α) (check : α → Bool)
    (s : Str) : Option (List α) :=
  traverseOpt
    (fun e =>
      match pel e with
      | some v => if check v then some v else none
      | none => none)
    (splitOnChar ',' s)

/-- The key-to-value mapping produced by splitting a value string, the
embedding of the source's `HashMap<RRuleProperty, String>`. -/
abbrev Props := RRuleProperty → Option Str

/-- The empty property mapping. -/
def Props.empty : Props := fun _ => none

/-- Insert (or overwrite) one key's value in the mapping. -/
def Props.insert (m : Props) (k : RRuleProperty) (v : Str) : Props :=
  fun p => if p = k then some v else m p

/-- One step of value-string splitting: recognize a `KEY=VALUE` piece and
record it in the mapping, a later occurrence of a key overwriting an
earlier one. -/
def paramStep (m : Props) (piece : Str) : Except ParseError Props :=
  match RRuleProperty.fromStr (splitKeyValue piece).1 with
  | .ok p => .ok (m.insert p (splitKeyValue piece).2)
  | .error e => .error e

/-- Modelled from the spec: `parse_parameters` (its file is not among the
provided sources) splits the value string on `;` into `KEY=VALUE` pairs,
matches keys case-insensitively, fails with `UnrecognizedParameter` on an
unmatched key, and lets a repeated key's later occurrence overwrite the
earlier one. -/
def parseParameters (value : Str) : Except ParseError Props :=
  (splitOnChar ';' value).foldlM paramStep Props.empty

/-- The unvalidated rule descriptor, embedding the fields of
`RRule<Unvalidated>` assembled by `props_to_rrule`. -/
structure RRuleUnvalidated where
  freq : Frequency
  interval : Nat
  count : Option Nat
  untilDt : Option MDateTime
  weekStart : Wday
  bySetPos : List Int
  byMonth : List Nat
  byMonthDay : List Int
  byNMonthDay : List Int
  byYearDay : List Int
  byWeekNo : List Int
  byWeekday : List NWeekday
  byHour : List Nat
  byMinute : List Nat
  bySecond : List Nat
  byEaster : Option Int
  includeDtstart : Option Bool
  localTzid : Option Tz
  deriving DecidableEq, Repr

/-- The FREQ block of `props_to_rrule`: parse the frequency, reporting a
missing key as `MissingProperty("FREQ")`. -/
def freqProp (props : Props) : Except ParseError Frequency :=
  match props .freq with
  | some f => Frequency.fromStr f
  | none => .error (.missingProperty (str "FREQ"))

/-- The INTERVAL block of `props_to_rrule`: parse the interval,
defaulting to 1 when the key is absent. -/
def intervalProp (props : Props) : Except ParseError Nat :=
  match props .interval with
  | some i =>
    match parsePosNat i with
    | some n => .ok n
    | none => .error (.invalidInterval i)
  | none => .ok 1

/-- The COUNT block of `props_to_rrule`. -/
def countProp (props : Props) : Except ParseError (Option Nat) :=
  match props .count with
  | some c =>
    match parseUInt c with
    | some n => .ok (some n)
    | none => .error (.invalidCount c)
  | none => .ok none

/-- The LOCAL-TZID block of `props_to_rrule`, resolved before UNTIL. -/
def localTzidProp (props : Props) : Except ParseError (Option Tz) :=
  match props .localTzid with
  | some t => (parseTimezone t).map some
  | none => .ok none

/-- The UNTIL block of `props_to_rrule`, taking the already-resolved
LOCAL-TZID zone. -/
def untilProp (props : Props) (localTzid : Option Tz) :
    Except ParseError (Option MDateTime) :=
  match props .until with
  | some u => (datestringToDateWithLocalTzid u (str "UNTIL") localTzid).map some
  | none => .ok none

/-- The WKST block of `props_to_rrule`, defaulting to Monday. -/
def weekStartProp (props : Props) : Except ParseError Wday :=
  match props .wkst with
  | some w =>
    match strToWeekday w with
    | some d => .ok d
    | none => .error (.invalidWeekdayStart w)
  | none => .ok Wday.mon

/-- The BYSETPOS block of `props_to_rrule` (no range check). -/
def bySetPosProp (props : Props) : Except ParseError (List Int) :=
  match props .bySetPos with
  | some s =>
    match parseStrToVec parseInt (fun _ => true) s with
    | some l => .ok l
    | none => .error (.invalidBySetPos s)
  | none => .ok []

/-- The BYMONTH block of `props_to_rrule` (range `1..=12`). -/
def byMonthProp (props : Props) : Except ParseError (List Nat) :=
  match props .byMonth with
  | some s =>
    match parseStrToVec parseUInt (fun month => 1 ≤ month && month ≤ 12) s with
    | some l => .ok l
    | none => .error (.invalidByMonth s)
  | none => .ok []

/-- The BYMONTHDAY block of `props_to_rrule` (range `-31..=31`). -/
def byMonthDayProp (props : Props) : Except ParseError (List Int) :=
  match props .byMonthDay with
  | some s =>
    match parseStrToVec parseInt (fun monthday => -31 ≤ monthday && monthday ≤ 31) s with
    | some l => .ok l
    | none => .error (.invalidByMonthDay s)
  | none => .ok []

/-- The BYYEARDAY block of `props_to_rrule` (range `-366..=366`). -/
def byYearDayProp (props : Props) : Except ParseError (List Int) :=
  match props .byYearDay with
  | some s =>
    match parseStrToVec parseInt (fun yearday => -366 ≤ yearday && yearday ≤ 366) s with
    | some l => .ok l
    | none => .error (.invalidByYearDay s)
  | none => .ok []

/-- The BYWEEKNO block of `props_to_rrule` (range `-53..=53`). -/
def byWeekNoProp (props : Props) : Except ParseError (List Int) :=
  match props .byWeekNo with
  | some s =>
    match parseStrToVec parseInt (fun weekno => -53 ≤ weekno && weekno ≤ 53) s with
    | some l => .ok l
    | none => .error (.invalidByWeekNo s)
  | none => .ok []

/-- The BYDAY block of `props_to_rrule`. -/
def byWeekdayProp (props : Props) : Except ParseError (List NWeekday) :=
  match props .byDay with
  | some s => parseWeekdays s
  | none => .ok []

/-- The BYHOUR block of `props_to_rrule` (each element below 24). -/
def byHourProp (props : Props) : Except ParseError (List Nat) :=
  match props .byHour with
  | some s =>
    match parseStrToVec parseUInt (fun hour => hour < 24) s with
    | some l => .ok l
    | none => .error (.invalidByHour s)
  | none => .ok []

/-- The BYMINUTE block of `props_to_rrule` (each element below 60). -/
def byMinuteProp (props : Props) : Except ParseError (List Nat) :=
  match props .byMinute with
  | some s =>
    match parseStrToVec parseUInt (fun minute => minute < 60) s with
    | some l => .ok l
    | none => .error (.invalidByMinute s)
  | none => .ok []

/-- The BYSECOND block of `props_to_rrule` (each element below 60). -/
def bySecondProp (props : Props) : Except ParseError (List Nat) :=
  match props .bySecond with
  | some s =>
    match parseStrToVec parseUInt (fun second => second < 60) s with
    | some l => .ok l
    | none => .error (.invalidBySecond s)
  | none => .ok []

/-- The BYEASTER block of `props_to_rrule` (optional feature enabled). -/
def byEasterProp (props : Props) : Except ParseError (Option Int) :=
  match props .byEaster with
  | some s =>
    match parseInt s with
    | some n => .ok (some n)
    | none => .error (.invalidByEaster s)
  | none => .ok none

/-- The X-INCLUDE-DTSTART block of `props_to_rrule`: case-insensitive
TRUE/1/YES and FALSE/0/NO vocabulary. -/
def includeDtstartProp (props : Props) : Except ParseError (Option Bool) :=
  match props .xIncludeDtstart with
  | some v =>
    let u := upper v
    if u = str "TRUE" ∨ u = str "1" ∨ u = str "YES" then .ok (some true)
    else if u = str "FALSE" ∨ u = str "0" ∨ u = str "NO" then .ok (some false)
    else .error (.invalidXIncludeDtstart v)
  | none => .ok none

/-- The source's `props_to_rrule`: assemble the unvalidated descriptor
from the key-to-value mapping, field by field in the source's order, with
LOCAL-TZID resolved before UNTIL is parsed. -/
def propsToRRule (props : Props) : Except ParseError RRuleUnvalidated := do
  let freq ← freqProp props
  let interval ← intervalProp props
  let count ← countProp props
  let localTzid ← localTzidProp props
  let untilDt ← untilProp props localTzid
  let weekStart ← weekStartProp props
  let bySetPos ← bySetPosProp props
  let byMonth ← byMonthProp props
  let byMonthDay ← byMonthDayProp props
  let byYearDay ← byYearDayProp props
  let byWeekNo ← byWeekNoProp props
  let byWeekday ← byWeekdayProp props
  let byHour ← byHourProp props
  let byMinute ← byMinuteProp props
  let bySecond ← bySecondProp props
  let byEaster ← byEasterProp props
  let includeDtstart ← includeDtstartProp props
  Except.ok
    { freq := freq
      interval := interval
      count := count
      untilDt := untilDt
      weekStart := weekStart
      bySetPos := bySetPos
      byMonth := byMonth
      byMonthDay := byMonthDay
      byNMonthDay := []
      byYearDay := byYearDay
      byWeekNo := byWeekNo
      byWeekday := byWeekday
      byHour := byHour
      byMinute := byMinute
      bySecond := bySecond
      byEaster := byEaster
      includeDtstart := includeDtstart
      localTzid := localTzid }

/-- One tokenized content line handed to the RRULE conversion: the
optional line-level parameter string and the value string (the property
name plays no role in the conversion). -/
structure ContentLineCaptures where
  parameters : Option Str
  value : Str

/-- The source's `TryFrom<ContentLineCaptures> for RRule<Unvalidated>`:
reject a present non-empty parameter string, then split the value string
and assemble the descriptor. -/
def rruleFromContentLine (cl : ContentLineCaptures) :
    Except ParseError RRuleUnvalidated :=
  match cl.parameters with
  | some p =>
    if p ≠ [] then .error (.propertyParametersNotSupported p)
    else parseParameters cl.value >>= propsToRRule
  | none => parseParameters cl.value >>= propsToRRule


/-- Error component of a parse result. -/
def errOf {α : Type} : Except ParseError α → Option ParseError
  | .error e => some e
  | .ok _ => none

/-- The LOCAL-TZID and UNTIL blocks chained, as the source chains them:
the UNTIL text is parsed with the zone resolved from LOCAL-TZID. -/
def untilChain (props : Props) : Except ParseError (Option MDateTime) :=
  localTzidProp props >>= untilProp props

/-- Field evaluation results of one property map, in the source's fixed
field-evaluation order: FREQ, INTERVAL, COUNT, LOCAL-TZID, UNTIL, WKST,
BYSETPOS, BYMONTH, BYMONTHDAY, BYYEARDAY, BYWEEKNO, BYDAY, BYHOUR,
BYMINUTE, BYSECOND, BYEASTER, X-INCLUDE-DTSTART. -/
def orderedErrors (props : Props) : List (Option ParseError) :=
  [errOf (freqProp props), errOf (intervalProp props), errOf (countProp props),
   errOf (localTzidProp props), errOf (untilChain props), errOf (weekStartProp props),
   errOf (bySetPosProp props), errOf (byMonthProp props), errOf (byMonthDayProp props),
   errOf (byYearDayProp props), errOf (byWeekNoProp props), errOf (byWeekdayProp props),
   errOf (byHourProp props), errOf (byMinuteProp props), errOf (bySecondProp props),
   errOf (byEasterProp props), errOf (includeDtstartProp props)]

/-- First failing field of one property map, in evaluation order. -/
def firstFieldError (props : Props) : Option ParseError :=
  (orderedErrors props).findSome? id

/-- Characterization of `props_to_rrule` failures: the error returned is
exactly the first failing field in the source's fixed evaluation order. -/
theorem propsToRRule_error_iff (props : Props) (e : ParseError) :
    propsToRRule props = .error e ↔ firstFieldError props = some e := by
  cases h1 : freqProp props with
  | error e1 =>
    simp [propsToRRule, firstFieldError, orderedErrors, errOf, untilChain, bind, Except.bind, h1]
  | ok a1 =>
   cases h2 : intervalProp props with
   | error e2 =>
     simp [propsToRRule, firstFieldError, orderedErrors, errOf, untilChain, bind, Except.bind, h1, h2]
   | ok a2 =>
    cases h3 : countProp props with
    | error e3 =>
      simp [propsToRRule, firstFieldError, orderedErrors, errOf, untilChain, bind, Except.bind, h1, h2, h3]
    | ok a3 =>
     cases h4 : localTzidProp props with
     | error e4 =>
       simp [propsToRRule, firstFieldError, orderedErrors, errOf, untilChain, bind, Except.bind, h1, h2, h3, h4]
     | ok a4 =>
      cases h5 : untilProp props a4 with
      | error e5 =>
        simp [propsToRRule, firstFieldError, orderedErrors, errOf, untilChain, bind, Except.bind, h1, h2, h3, h4, h5]
      | ok a5 =>
       cases h6 : weekStartProp props with
       | error e6 =>
         simp [propsToRRule, firstFieldError, orderedErrors, errOf, untilChain, bind, Except.bind, h1, h2, h3, h4, h5, h6]
       | ok a6 =>
        cases h7 : bySetPosProp props with
        | error e7 =>
          simp [propsToRRule, firstFieldError, orderedErrors, errOf, untilChain, bind, Except.bind, h1, h2, h3, h4, h5, h6, h7]
        | ok a7 =>
         cases h8 : byMonthProp props with
         | error e8 =>
           simp [propsToRRule, firstFieldError, orderedErrors, errOf, untilChain, bind, Except.bind, h1, h2, h3, h4, h5, h6, h7, h8]
         | ok a8 =>
          cases h9 : byMonthDayProp props with
          | error e9 =>
            simp [propsToRRule, firstFieldError, orderedErrors, errOf, untilChain, bind, Except.bind, h1, h2, h3, h4, h5, h6, h7, h8, h9]
          | ok a9 =>
           cases h10 : byYearDayProp props with
           | error e10 =>
             simp [propsToRRule, firstFieldError, orderedErrors, errOf, untilChain, bind, Except.bind, h1, h2, h3, h4, h5, h6, h7, h8, h9, h10]
           | ok a10 =>
            cases h11 : byWeekNoProp props with
            | error e11 =>
              simp [propsToRRule, firstFieldError, orderedErrors, errOf, untilChain, bind, Except.bind, h1, h2, h3, h4, h5, h6, h7, h8, h9, h10, h11]
            | ok a11 =>
             cases h12 : byWeekdayProp props with
             | error e12 =>
               simp [propsToRRule, firstFieldError, orderedErrors, errOf, untilChain, bind, Except.bind, h1, h2, h3, h4, h5, h6, h7, h8, h9, h10, h11, h12]
             | ok a12 =>
              cases h13 : byHourProp props with
              | error e13 =>
                simp [propsToRRule, firstFieldError, orderedErrors, errOf, untilChain, bind, Except.bind, h1, h2, h3, h4, h5, h6, h7, h8, h9, h10, h11, h12, h13]
              | ok a13 =>
               cases h14 : byMinuteProp props with
               | error e14 =>
                 simp [propsToRRule, firstFieldError, orderedErrors, errOf, untilChain, bind, Except.bind, h1, h2, h3, h4, h5, h6, h7, h8, h9, h10, h11, h12, h13, h14]
               | ok a14 =>
                cases h15 : bySecondProp props with
                | error e15 =>
                  simp [propsToRRule, firstFieldError, orderedErrors, errOf, untilChain, bind, Except.bind, h1, h2, h3, h4, h5, h6, h7, h8, h9, h10, h11, h12, h13, h14, h15]
                | ok a15 =>
                 cases h16 : byEasterProp props with
                 | error e16 =>
                   simp [propsToRRule, firstFieldError, orderedErrors, errOf, untilChain, bind, Except.bind, h1, h2, h3, h4, h5, h6, h7, h8, h9, h10, h11, h12, h13, h14, h15, h16]
                 | ok a16 =>
                  cases h17 : includeDtstartProp props with
                  | error e17 =>
                    simp [propsToRRule, firstFieldError, orderedErrors, errOf, untilChain, bind, Except.bind, h1, h2, h3, h4, h5, h6, h7, h8, h9, h10, h11, h12, h13, h14, h15, h16, h17]
                  | ok a17 =>
                   simp [propsToRRule, firstFieldError, orderedErrors, errOf, untilChain, bind, Except.bind, h1, h2, h3, h4, h5, h6, h7, h8, h9, h10, h11, h12, h13, h14, h15, h16, h17]

/-- Characterization of `props_to_rrule` successes: field by field. -/
theorem propsToRRule_ok_iff (props : Props) (r : RRuleUnvalidated) :
    propsToRRule props = .ok r ↔
      (freqProp props = .ok r.freq ∧ intervalProp props = .ok r.interval ∧
       countProp props = .ok r.count ∧ localTzidProp props = .ok r.localTzid ∧
       untilChain props = .ok r.untilDt ∧ weekStartProp props = .ok r.weekStart ∧
       bySetPosProp props = .ok r.bySetPos ∧ byMonthProp props = .ok r.byMonth ∧
       byMonthDayProp props = .ok r.byMonthDay ∧ r.byNMonthDay = [] ∧
       byYearDayProp props = .ok r.byYearDay ∧ byWeekNoProp props = .ok r.byWeekNo ∧
       byWeekdayProp props = .ok r.byWeekday ∧ byHourProp props = .ok r.byHour ∧
       byMinuteProp props = .ok r.byMinute ∧ bySecondProp props = .ok r.bySecond ∧
       byEasterProp props = .ok r.byEaster ∧
       includeDtstartProp props = .ok r.includeDtstart) := by
  obtain ⟨f1, f2, f3, f4, f5, f6, f7, f8, f9, f10, f11, f12, f13, f14, f15, f16, f17, f18⟩ := r
  cases h1 : freqProp props with
  | error e1 =>
    simp [propsToRRule, untilChain, bind, Except.bind, h1]
  | ok a1 =>
   cases h2 : intervalProp props with
   | error e2 =>
     simp [propsToRRule, untilChain, bind, Except.bind, h1, h2]
   | ok a2 =>
    cases h3 : countProp props with
    | error e3 =>
      simp [propsToRRule, untilChain, bind, Except.bind, h1, h2, h3]
    | ok a3 =>
     cases h4 : localTzidProp props with
     | error e4 =>
       simp [propsToRRule, untilChain, bind, Except.bind, h1, h2, h3, h4]
     | ok a4 =>
      cases h5 : untilProp props a4 with
      | error e5 =>
        simp [propsToRRule, untilChain, bind, Except.bind, h1, h2, h3, h4, h5]
      | ok a5 =>
       cases h6 : weekStartProp props with
       | error e6 =>
         simp [propsToRRule, untilChain, bind, Except.bind, h1, h2, h3, h4, h5, h6]
       | ok a6 =>
        cases h7 : bySetPosProp props with
        | error e7 =>
          simp [propsToRRule, untilChain, bind, Except.bind, h1, h2, h3, h4, h5, h6, h7]
        | ok a7 =>
         cases h8 : byMonthProp props with
         | error e8 =>
           simp [propsToRRule, untilChain, bind, Except.bind, h1, h2, h3, h4, h5, h6, h7, h8]
         | ok a8 =>
          cases h9 : byMonthDayProp props with
          | error e9 =>
            simp [propsToRRule, untilChain, bind, Except.bind, h1, h2, h3, h4, h5, h6, h7, h8, h9]
          | ok a9 =>
           cases h10 : byYearDayProp props with
           | error e10 =>
             simp [propsToRRule, untilChain, bind, Except.bind, h1, h2, h3, h4, h5, h6, h7, h8, h9, h10]
           | ok a10 =>
            cases h11 : byWeekNoProp props with
            | error e11 =>
              simp [propsToRRule, untilChain, bind, Except.bind, h1, h2, h3, h4, h5, h6, h7, h8, h9, h10, h11]
            | ok a11 =>
             cases h12 : byWeekdayProp props with
             | error e12 =>
               simp [propsToRRule, untilChain, bind, Except.bind, h1, h2, h3, h4, h5, h6, h7, h8, h9, h10, h11, h12]
             | ok a12 =>
              cases h13 : byHourProp props with
              | error e13 =>
                simp [propsToRRule, untilChain, bind, Except.bind, h1, h2, h3, h4, h5, h6, h7, h8, h9, h10, h11, h12, h13]
              | ok a13 =>
               cases h14 : byMinuteProp props with
               | error e14 =>
                 simp [propsToRRule, untilChain, bind, Except.bind, h1, h2, h3, h4, h5, h6, h7, h8, h9, h10, h11, h12, h13, h14]
               | ok a14 =>
                cases h15 : bySecondProp props with
                | error e15 =>
                  simp [propsToRRule, untilChain, bind, Except.bind, h1, h2, h3, h4, h5, h6, h7, h8, h9, h10, h11, h12, h13, h14, h15]
                | ok a15 =>
                 cases h16 : byEasterProp props with
                 | error e16 =>
                   simp [propsToRRule, untilChain, bind, Except.bind, h1, h2, h3, h4, h5, h6, h7, h8, h9, h10, h11, h12, h13, h14, h15, h16]
                 | ok a16 =>
                  cases h17 : includeDtstartProp props with
                  | error e17 =>
                    simp [propsToRRule, untilChain, bind, Except.bind, h1, h2, h3, h4, h5, h6, h7, h8, h9, h10, h11, h12, h13, h14, h15, h16, h17]
                  | ok a17 =>
                   simp [propsToRRule, untilChain, bind, Except.bind, h1, h2, h3, h4, h5, h6, h7, h8, h9, h10, h11, h12, h13, h14, h15, h16, h17]
                   tauto

/-! Infrastructure lemmas about the string utilities. -/

theorem splitOnChar_ne_nil (sep : Char) (s : Str) : splitOnChar sep s ≠ [] := by
  induction s with
  | nil => simp [splitOnChar]
  | cons c cs ih =>
    simp only [splitOnChar]
    split
    · simp
    · cases h : splitOnChar sep cs with
      | nil => simp
      | cons p ps => simp

theorem not_mem_of_mem_splitOnChar (sep : Char) (s : Str) :
    ∀ p ∈ splitOnChar sep s, sep ∉ p := by
  induction s with
  | nil => simp [splitOnChar]
  | cons c cs ih =>
    simp only [splitOnChar]
    split
    · intro p hp
      rcases List.mem_cons.mp hp with rfl | hp
      · simp
      · exact ih p hp
    · cases h : splitOnChar sep cs with
      | nil => exact absurd h (splitOnChar_ne_nil sep cs)
      | cons q qs =>
        intro p hp
        rcases List.mem_cons.mp hp with rfl | hp
        · intro hmem
          rcases List.mem_cons.mp hmem with rfl | hmem
          · simp_all
          · exact ih q (h ▸ List.mem_cons_self q qs) hmem
        · exact ih p (h ▸ List.mem_cons_of_mem q hp)

theorem splitOnChar_append_sep (sep : Char) (s t : Str) (hs : sep ∉ s) :
    splitOnChar sep (s ++ sep :: t) = s :: splitOnChar sep t := by
  induction s with
  | nil => simp [splitOnChar]
  | cons c cs ih =>
    simp only [List.cons_append, splitOnChar]
    have hc : c ≠ sep := fun h => hs (h ▸ List.mem_cons_self c cs)
    have hcs : sep ∉ cs := fun h => hs (List.mem_cons_of_mem c h)
    rw [if_neg hc]
    simp only [List.append_eq]
    rw [ih hcs]

theorem splitOnChar_no_sep (sep : Char) (s : Str) (hs : sep ∉ s) :
    splitOnChar sep s = [s] := by
  induction s with
  | nil => simp [splitOnChar]
  | cons c cs ih =>
    have hc : c ≠ sep := fun h => hs (h ▸ List.mem_cons_self c cs)
    have hcs : sep ∉ cs := fun h => hs (List.mem_cons_of_mem c h)
    simp only [splitOnChar, if_neg hc, ih hcs]

/-- Join a list of pieces with a separator character between them. -/
def joinSep (sep : Char) : List Str → Str
  | [] => []
  | [p] => p
  | p :: q :: qs => p ++ sep :: joinSep sep (q :: qs)

theorem splitOnChar_joinSep (sep : Char) (l : List Str) (hne : l ≠ [])
    (hfree : ∀ p ∈ l, sep ∉ p) :
    splitOnChar sep (joinSep sep l) = l := by
  induction l with
  | nil => exact absurd rfl hne
  | cons p ps ih =>
    cases ps with
    | nil =>
      exact splitOnChar_no_sep sep p (hfree p (List.mem_cons_self p []))
    | cons q qs =>
      simp only [joinSep]
      rw [splitOnChar_append_sep sep _ _ (hfree p (List.mem_cons_self p _))]
      rw [ih (by simp) (fun x hx => hfree x (List.mem_cons_of_mem p hx))]

/-- Decimal digits of a natural number, least significant first, with
explicit fuel so that the definition computes by kernel reduction. -/
def natDigitsRev : Nat → Nat → List Nat
  | 0, _ => []
  | fuel + 1, n => if n = 0 then [] else n % 10 :: natDigitsRev fuel (n / 10)

/-- Character of a decimal digit. -/
def digitChar (n : Nat) : Char := Char.ofNat (48 + n)

/-- Decimal rendering of a natural number. -/
def natToChars (n : Nat) : Str :=
  if n = 0 then [digitChar 0] else ((natDigitsRev (n + 1) n).reverse).map digitChar

/-- Decimal rendering of an integer, with a leading minus sign when
negative. -/
def intToChars (i : Int) : Str :=
  if i < 0 then '-' :: natToChars i.natAbs else natToChars i.toNat

theorem parseDigit_digitChar (d : Nat) (hd : d < 10) :
    parseDigit (digitChar d) = some d := by
  interval_cases d <;> decide

theorem digitChar_digit_range (d : Nat) (hd : d < 10) :
    '0' ≤ digitChar d ∧ digitChar d ≤ '9' := by
  interval_cases d <;> decide

theorem natDigitsRev_lt_ten (fuel n : Nat) : ∀ d ∈ natDigitsRev fuel n, d < 10 := by
  induction fuel generalizing n with
  | zero => simp [natDigitsRev]
  | succ fuel ih =>
    intro d hd
    simp only [natDigitsRev] at hd
    split at hd
    · simp at hd
    · rcases List.mem_cons.mp hd with rfl | hd
      · omega
      · exact ih (n / 10) d hd

theorem parseUIntAux_digits (ds : List Nat) (hds : ∀ d ∈ ds, d < 10) (acc : Nat) :
    parseUIntAux acc (ds.map digitChar) =
      some (ds.foldl (fun a d => a * 10 + d) acc) := by
  induction ds generalizing acc with
  | nil => simp [parseUIntAux]
  | cons d ds ih =>
    have hd : d < 10 := hds d (List.mem_cons_self d ds)
    simp only [List.map_cons, parseUIntAux, parseDigit_digitChar d hd]
    exact ih (fun x hx => hds x (List.mem_cons_of_mem d hx)) (acc * 10 + d)

theorem natDigitsRev_foldl (fuel : Nat) :
    ∀ n, n ≤ fuel → ∀ acc,
      (natDigitsRev fuel n).reverse.foldl (fun a d => a * 10 + d) acc =
        acc * 10 ^ (natDigitsRev fuel n).length + n := by
  induction fuel with
  | zero => intro n hn acc; interval_cases n; simp [natDigitsRev]
  | succ fuel ih =>
    intro n hn acc
    simp only [natDigitsRev]
    split
    · simp_all
    · rename_i hne
      have hdiv : n / 10 ≤ fuel := by omega
      have hrec := ih (n / 10) hdiv
      simp only [List.reverse_cons, List.foldl_append, List.foldl_cons,
        List.foldl_nil, List.length_cons]
      rw [hrec acc]
      have := Nat.div_add_mod n 10
      ring_nf
      omega

theorem parseUInt_natToChars (n : Nat) : parseUInt (natToChars n) = some n := by
  by_cases hn : n = 0
  · subst hn; decide
  · simp only [natToChars, if_neg hn]
    have hdig : ∀ x ∈ (natDigitsRev (n + 1) n).reverse, x < 10 := fun x hx =>
      natDigitsRev_lt_ten (n + 1) n x (List.mem_reverse.mp hx)
    have haux := parseUIntAux_digits ((natDigitsRev (n + 1) n).reverse) hdig 0
    have hfold := natDigitsRev_foldl (n + 1) n (by omega) 0
    have hlen : natDigitsRev (n + 1) n ≠ [] := by
      simp [natDigitsRev, hn]
    cases hrev : (natDigitsRev (n + 1) n).reverse with
    | nil => simp_all
    | cons d ds =>
      rw [hrev] at haux hfold
      simp only [List.map_cons]
      simp only [parseUInt]
      rw [List.map_cons] at haux
      rw [haux]
      simp only [Nat.zero_mul, Nat.zero_add] at hfold
      rw [hfold]

theorem natToChars_ne_nil (n : Nat) : natToChars n ≠ [] := by
  by_cases hn : n = 0
  · subst hn; decide
  · simp only [natToChars, if_neg hn]
    simp [natDigitsRev, hn]

theorem natToChars_digits (n : Nat) : ∀ c ∈ natToChars n, '0' ≤ c ∧ c ≤ '9' := by
  by_cases hn : n = 0
  · subst hn; decide
  · simp only [natToChars, if_neg hn]
    intro c hc
    rcases List.mem_map.mp hc with ⟨d, hd, rfl⟩
    exact digitChar_digit_range d
      (natDigitsRev_lt_ten (n + 1) n d (List.mem_reverse.mp hd))

theorem digit_ne_minus {c : Char} (h : '0' ≤ c ∧ c ≤ '9') : c ≠ '-' :=
  fun heq => absurd (heq ▸ h).1 (by decide)

theorem digit_ne_plus {c : Char} (h : '0' ≤ c ∧ c ≤ '9') : c ≠ '+' :=
  fun heq => absurd (heq ▸ h).1 (by decide)

theorem digit_ne_semi {c : Char} (h : '0' ≤ c ∧ c ≤ '9') : c ≠ ';' :=
  fun heq => absurd (heq ▸ h).2 (by decide)

theorem digit_ne_comma {c : Char} (h : '0' ≤ c ∧ c ≤ '9') : c ≠ ',' :=
  fun heq => absurd (heq ▸ h).1 (by decide)

theorem digit_ne_eq {c : Char} (h : '0' ≤ c ∧ c ≤ '9') : c ≠ '=' :=
  fun heq => absurd (heq ▸ h).2 (by decide)

theorem parseInt_intToChars (i : Int) : parseInt (intToChars i) = some i := by
  by_cases hi : i < 0
  · have h1 : intToChars i = '-' :: natToChars i.natAbs := by
      simp [intToChars, hi]
    rw [h1]
    show (if ('-' : Char) = '-' then
        (parseUInt (natToChars i.natAbs)).map (fun n => -(Int.ofNat n))
      else if ('-' : Char) = '+' then
        (parseUInt (natToChars i.natAbs)).map Int.ofNat
      else (parseUInt ('-' :: natToChars i.natAbs)).map Int.ofNat) = some i
    rw [if_pos rfl, parseUInt_natToChars]
    simp only [Option.map_some']
    congr 1
    simp only [Int.ofNat_eq_natCast]
    omega
  · have h1 : intToChars i = natToChars i.toNat := by
      simp [intToChars, hi]
    rw [h1]
    cases hcons : natToChars i.toNat with
    | nil => exact absurd hcons (natToChars_ne_nil i.toNat)
    | cons c cs =>
      have hdig : '0' ≤ c ∧ c ≤ '9' :=
        natToChars_digits i.toNat c (hcons ▸ List.mem_cons_self c cs)
      show (if c = '-' then (parseUInt cs).map (fun n => -(Int.ofNat n))
        else if c = '+' then (parseUInt cs).map Int.ofNat
        else (parseUInt (c :: cs)).map Int.ofNat) = some i
      rw [if_neg (digit_ne_minus hdig), if_neg (digit_ne_plus hdig)]
      rw [← hcons, parseUInt_natToChars]
      simp only [Option.map_some']
      congr 1
      simp only [Int.ofNat_eq_natCast]
      omega

theorem intToChars_chars (i : Int) :
    ∀ c ∈ intToChars i, ('0' ≤ c ∧ c ≤ '9') ∨ c = '-' := by
  by_cases hi : i < 0
  · simp only [intToChars, if_pos hi]
    intro c hc
    rcases List.mem_cons.mp hc with rfl | hc
    · right; rfl
    · left; exact natToChars_digits i.natAbs c hc
  · simp only [intToChars, if_neg hi]
    intro c hc
    left; exact natToChars_digits i.toNat c hc

theorem traverseOpt_eq_none_iff {α β : Type} (f : α → Option β) (l : List α) :
    traverseOpt f l = none ↔ ∃ x ∈ l, f x = none := by
  induction l with
  | nil => simp [traverseOpt]
  | cons a l ih =>
    simp only [traverseOpt]
    cases ha : f a with
    | none =>
      simp only [List.mem_cons]
      constructor
      · intro _; exact ⟨a, Or.inl rfl, ha⟩
      · intro _; trivial
    | some b =>
      cases hl : traverseOpt f l with
      | none =>
        simp only [Option.map_none']
        constructor
        · intro _
          obtain ⟨x, hx, hfx⟩ := ih.mp hl
          exact ⟨x, List.mem_cons_of_mem a hx, hfx⟩
        · intro _; trivial
      | some bs =>
        simp only [Option.map_some']
        constructor
        · intro h; exact absurd h (by simp)
        · rintro ⟨x, hx, hfx⟩
          rcases List.mem_cons.mp hx with rfl | hx2
          · rw [ha] at hfx; exact absurd hfx (by simp)
          · have hnone : traverseOpt f l = none := ih.mpr ⟨x, hx2, hfx⟩
            rw [hl] at hnone
            exact absurd hnone (by simp)

theorem traverseOpt_congr_some {α β : Type} (f : α → Option β) (g : α → β)
    (l : List α) (h : ∀ x ∈ l, f x = some (g x)) :
    traverseOpt f l = some (l.map g) := by
  induction l with
  | nil => simp [traverseOpt]
  | cons a l ih =>
    simp only [traverseOpt, h a (List.mem_cons_self a l),
      ih (fun x hx => h x (List.mem_cons_of_mem a hx))]
    rfl

/-! Shapes of the errors each field block can produce. -/

theorem Frequency.fromStr_err {s : Str} {e : ParseError}
    (h : Frequency.fromStr s = .error e) : e = .invalidFrequency s := by
  simp only [Frequency.fromStr] at h
  split_ifs at h <;> simp_all

theorem parseTimezone_error {s : Str} {e : ParseError}
    (h : parseTimezone s = .error e) : e = .invalidTimezone s := by
  simp only [parseTimezone] at h
  split_ifs at h <;> simp_all

theorem datestring_error {s property : Str} {tz : Option Tz} {e : ParseError}
    (h : datestringToDateWithLocalTzid s property tz = .error e) :
    e = .invalidDateTime s property := by
  simp only [datestringToDateWithLocalTzid] at h
  cases hr : parseDatestringRaw s with
  | none => simp only [hr] at h; simp_all
  | some p =>
    obtain ⟨f, utc⟩ := p
    simp only [hr] at h
    split_ifs at h <;> simp_all

theorem parseWeekdays_error {s : Str} {e : ParseError}
    (h : parseWeekdays s = .error e) : e = .invalidWeekday s := by
  unfold parseWeekdays at h
  split at h <;> simp_all

theorem freqProp_error {props : Props} {e : ParseError}
    (h : freqProp props = .error e) :
    e = .missingProperty (str "FREQ") ∨
      ∃ f, props .freq = some f ∧ e = .invalidFrequency f := by
  cases hf : props .freq with
  | none =>
    simp only [freqProp, hf] at h
    simp only [Except.error.injEq] at h
    exact Or.inl h.symm
  | some f =>
    simp only [freqProp, hf] at h
    exact Or.inr ⟨f, rfl, Frequency.fromStr_err h⟩

theorem intervalProp_error {props : Props} {e : ParseError}
    (h : intervalProp props = .error e) :
    ∃ s, props .interval = some s ∧ parsePosNat s = none ∧
      e = .invalidInterval s := by
  cases hf : props .interval with
  | none => simp [intervalProp, hf] at h
  | some s =>
    simp only [intervalProp, hf] at h
    cases hp : parsePosNat s with
    | none =>
      simp only [hp, Except.error.injEq] at h
      exact ⟨s, rfl, hp, h.symm⟩
    | some n => simp [hp] at h

theorem countProp_error {props : Props} {e : ParseError}
    (h : countProp props = .error e) :
    ∃ s, props .count = some s ∧ parseUInt s = none ∧ e = .invalidCount s := by
  cases hf : props .count with
  | none => simp [countProp, hf] at h
  | some s =>
    simp only [countProp, hf] at h
    cases hp : parseUInt s with
    | none =>
      simp only [hp, Except.error.injEq] at h
      exact ⟨s, rfl, hp, h.symm⟩
    | some n => simp [hp] at h

theorem localTzidProp_error {props : Props} {e : ParseError}
    (h : localTzidProp props = .error e) :
    ∃ s, props .localTzid = some s ∧ e = .invalidTimezone s := by
  cases hf : props .localTzid with
  | none => simp [localTzidProp, hf] at h
  | some s =>
    simp only [localTzidProp, hf] at h
    cases hp : parseTimezone s with
    | error e2 =>
      simp only [hp, Except.map, Except.error.injEq] at h
      exact ⟨s, rfl, h ▸ parseTimezone_error hp⟩
    | ok z => simp [hp, Except.map] at h

theorem untilProp_error {props : Props} {tz : Option Tz} {e : ParseError}
    (h : untilProp props tz = .error e) :
    ∃ s, props .until = some s ∧ e = .invalidDateTime s (str "UNTIL") := by
  cases hf : props .until with
  | none => simp [untilProp, hf] at h
  | some s =>
    simp only [untilProp, hf] at h
    cases hp : datestringToDateWithLocalTzid s (str "UNTIL") tz with
    | error e2 =>
      simp only [hp, Except.map, Except.error.injEq] at h
      exact ⟨s, rfl, h ▸ datestring_error hp⟩
    | ok d => simp [hp, Except.map] at h

theorem weekStartProp_error {props : Props} {e : ParseError}
    (h : weekStartProp props = .error e) :
    ∃ s, props .wkst = some s ∧ strToWeekday s = none ∧
      e = .invalidWeekdayStart s := by
  cases hf : props .wkst with
  | none => simp [weekStartProp, hf] at h
  | some s =>
    simp only [weekStartProp, hf] at h
    cases hp : strToWeekday s with
    | none =>
      simp only [hp, Except.error.injEq] at h
      exact ⟨s, rfl, hp, h.symm⟩
    | some w => simp [hp] at h

theorem untilChain_error {props : Props} {e : ParseError}
    (h : untilChain props = .error e) :
    (∃ s, props .localTzid = some s ∧ e = .invalidTimezone s) ∨
      (∃ s, props .until = some s ∧ e = .invalidDateTime s (str "UNTIL")) := by
  unfold untilChain at h
  cases ht : localTzidProp props with
  | error e2 =>
    rw [ht] at h
    simp only [bind, Except.bind, Except.error.injEq] at h
    exact Or.inl (h ▸ localTzidProp_error ht)
  | ok z =>
    rw [ht] at h
    simp only [bind, Except.bind] at h
    exact Or.inr (untilProp_error h)

theorem bySetPosProp_error {props : Props} {e : ParseError}
    (h : bySetPosProp props = .error e) :
    ∃ s, props .bySetPos = some s ∧
      parseStrToVec parseInt (fun _ => true) s = none ∧ e = .invalidBySetPos s := by
  cases hf : props .bySetPos with
  | none => simp [bySetPosProp, hf] at h
  | some s =>
    simp only [bySetPosProp, hf] at h
    cases hp : parseStrToVec parseInt (fun _ => true) s with
    | none =>
      simp only [hp, Except.error.injEq] at h
      exact ⟨s, rfl, hp, h.symm⟩
    | some l => simp [hp] at h

theorem bySetPosProp_of_none {props : Props} {s : Str}
    (hf : props .bySetPos = some s)
    (hp : parseStrToVec parseInt (fun _ => true) s = none) :
    bySetPosProp props = .error (.invalidBySetPos s) := by
  simp [bySetPosProp, hf, hp]

theorem byMonthProp_error {props : Props} {e : ParseError}
    (h : byMonthProp props = .error e) :
    ∃ s, props .byMonth = some s ∧
      parseStrToVec parseUInt (fun month => 1 ≤ month && month ≤ 12) s = none ∧ e = .invalidByMonth s := by
  cases hf : props .byMonth with
  | none => simp [byMonthProp, hf] at h
  | some s =>
    simp only [byMonthProp, hf] at h
    cases hp : parseStrToVec parseUInt (fun month => 1 ≤ month && month ≤ 12) s with
    | none =>
      simp only [hp, Except.error.injEq] at h
      exact ⟨s, rfl, hp, h.symm⟩
    | some l => simp [hp] at h

theorem byMonthProp_of_none {props : Props} {s : Str}
    (hf : props .byMonth = some s)
    (hp : parseStrToVec parseUInt (fun month => 1 ≤ month && month ≤ 12) s = none) :
    byMonthProp props = .error (.invalidByMonth s) := by
  simp [byMonthProp, hf, hp]

theorem byMonthDayProp_error {props : Props} {e : ParseError}
    (h : byMonthDayProp props = .error e) :
    ∃ s, props .byMonthDay = some s ∧
      parseStrToVec parseInt (fun monthday => -31 ≤ monthday && monthday ≤ 31) s = none ∧ e = .invalidByMonthDay s := by
  cases hf : props .byMonthDay with
  | none => simp [byMonthDayProp, hf] at h
  | some s =>
    simp only [byMonthDayProp, hf] at h
    cases hp : parseStrToVec parseInt (fun monthday => -31 ≤ monthday && monthday ≤ 31) s with
    | none =>
      simp only [hp, Except.error.injEq] at h
      exact ⟨s, rfl, hp, h.symm⟩
    | some l => simp [hp] at h

theorem byMonthDayProp_of_none {props : Props} {s : Str}
    (hf : props .byMonthDay = some s)
    (hp : parseStrToVec parseInt (fun monthday => -31 ≤ monthday && monthday ≤ 31) s = none) :
    byMonthDayProp props = .error (.invalidByMonthDay s) := by
  simp [byMonthDayProp, hf, hp]

theorem byYearDayProp_error {props : Props} {e : ParseError}
    (h : byYearDayProp props = .error e) :
    ∃ s, props .byYearDay = some s ∧
      parseStrToVec parseInt (fun yearday => -366 ≤ yearday && yearday ≤ 366) s = none ∧ e = .invalidByYearDay s := by
  cases hf : props .byYearDay with
  | none => simp [byYearDayProp, hf] at h
  | some s =>
    simp only [byYearDayProp, hf] at h
    cases hp : parseStrToVec parseInt (fun yearday => -366 ≤ yearday && yearday ≤ 366) s with
    | none =>
      simp only [hp, Except.error.injEq] at h
      exact ⟨s, rfl, hp, h.symm⟩
    | some l => simp [hp] at h

theorem byYearDayProp_of_none {props : Props} {s : Str}
    (hf : props .byYearDay = some s)
    (hp : parseStrToVec parseInt (fun yearday => -366 ≤ yearday && yearday ≤ 366) s = none) :
    byYearDayProp props = .error (.invalidByYearDay s) := by
  simp [byYearDayProp, hf, hp]

theorem byWeekNoProp_error {props : Props} {e : ParseError}
    (h : byWeekNoProp props = .error e) :
    ∃ s, props .byWeekNo = some s ∧
      parseStrToVec parseInt (fun weekno => -53 ≤ weekno && weekno ≤ 53) s = none ∧ e = .invalidByWeekNo s := by
  cases hf : props .byWeekNo with
  | none => simp [byWeekNoProp, hf] at h
  | some s =>
    simp only [byWeekNoProp, hf] at h
    cases hp : parseStrToVec parseInt (fun weekno => -53 ≤ weekno && weekno ≤ 53) s with
    | none =>
      simp only [hp, Except.error.injEq] at h
      exact ⟨s, rfl, hp, h.symm⟩
    | some l => simp [hp] at h

theorem byWeekNoProp_of_none {props : Props} {s : Str}
    (hf : props .byWeekNo = some s)
    (hp : parseStrToVec parseInt (fun weekno => -53 ≤ weekno && weekno ≤ 53) s = none) :
    byWeekNoProp props = .error (.invalidByWeekNo s) := by
  simp [byWeekNoProp, hf, hp]

theorem byHourProp_error {props : Props} {e : ParseError}
    (h : byHourProp props = .error e) :
    ∃ s, props .byHour = some s ∧
      parseStrToVec parseUInt (fun hour => hour < 24) s = none ∧ e = .invalidByHour s := by
  cases hf : props .byHour with
  | none => simp [byHourProp, hf] at h
  | some s =>
    simp only [byHourProp, hf] at h
    cases hp : parseStrToVec parseUInt (fun hour => hour < 24) s with
    | none =>
      simp only [hp, Except.error.injEq] at h
      exact ⟨s, rfl, hp, h.symm⟩
    | some l => simp [hp] at h

theorem byHourProp_of_none {props : Props} {s : Str}
    (hf : props .byHour = some s)
    (hp : parseStrToVec parseUInt (fun hour => hour < 24) s = none) :
    byHourProp props = .error (.invalidByHour s) := by
  simp [byHourProp, hf, hp]

theorem byMinuteProp_error {props : Props} {e : ParseError}
    (h : byMinuteProp props = .error e) :
    ∃ s, props .byMinute = some s ∧
      parseStrToVec parseUInt (fun minute => minute < 60) s = none ∧ e = .invalidByMinute s := by
  cases hf : props .byMinute with
  | none => simp [byMinuteProp, hf] at h
  | some s =>
    simp only [byMinuteProp, hf] at h
    cases hp : parseStrToVec parseUInt (fun minute => minute < 60) s with
    | none =>
      simp only [hp, Except.error.injEq] at h
      exact ⟨s, rfl, hp, h.symm⟩
    | some l => simp [hp] at h

theorem byMinuteProp_of_none {props : Props} {s : Str}
    (hf : props .byMinute = some s)
    (hp : parseStrToVec parseUInt (fun minute => minute < 60) s = none) :
    byMinuteProp props = .error (.invalidByMinute s) := by
  simp [byMinuteProp, hf, hp]

theorem bySecondProp_error {props : Props} {e : ParseError}
    (h : bySecondProp props = .error e) :
    ∃ s, props .bySecond = some s ∧
      parseStrToVec parseUInt (fun second => second < 60) s = none ∧ e = .invalidBySecond s := by
  cases hf : props .bySecond with
  | none => simp [bySecondProp, hf] at h
  | some s =>
    simp only [bySecondProp, hf] at h
    cases hp : parseStrToVec parseUInt (fun second => second < 60) s with
    | none =>
      simp only [hp, Except.error.injEq] at h
      exact ⟨s, rfl, hp, h.symm⟩
    | some l => simp [hp] at h

theorem bySecondProp_of_none {props : Props} {s : Str}
    (hf : props .bySecond = some s)
    (hp : parseStrToVec parseUInt (fun second => second < 60) s = none) :
    bySecondProp props = .error (.invalidBySecond s) := by
  simp [bySecondProp, hf, hp]

theorem byWeekdayProp_error {props : Props} {e : ParseError}
    (h : byWeekdayProp props = .error e) :
    ∃ s, props .byDay = some s ∧ e = .invalidWeekday s := by
  cases hf : props .byDay with
  | none => simp [byWeekdayProp, hf] at h
  | some s =>
    simp only [byWeekdayProp, hf] at h
    exact ⟨s, rfl, parseWeekdays_error h⟩

theorem byEasterProp_error {props : Props} {e : ParseError}
    (h : byEasterProp props = .error e) :
    ∃ s, props .byEaster = some s ∧ parseInt s = none ∧ e = .invalidByEaster s := by
  cases hf : props .byEaster with
  | none => simp [byEasterProp, hf] at h
  | some s =>
    simp only [byEasterProp, hf] at h
    cases hp : parseInt s with
    | none =>
      simp only [hp, Except.error.injEq] at h
      exact ⟨s, rfl, hp, h.symm⟩
    | some n => simp [hp] at h

theorem includeDtstartProp_error {props : Props} {e : ParseError}
    (h : includeDtstartProp props = .error e) :
    ∃ s, props .xIncludeDtstart = some s ∧ e = .invalidXIncludeDtstart s := by
  cases hf : props .xIncludeDtstart with
  | none => simp [includeDtstartProp, hf] at h
  | some v =>
    simp only [includeDtstartProp, hf] at h
    split_ifs at h <;> simp_all

/-! Lemmas about the value-string splitter. -/

theorem RRuleProperty.fromStr_error {s : Str} {e : ParseError}
    (h : RRuleProperty.fromStr s = .error e) : e = .unrecognizedParameter s := by
  unfold RRuleProperty.fromStr at h
  cases hu : RRuleProperty.fromUpper (upper s) with
  | some p => rw [hu] at h; exact Except.noConfusion h
  | none => rw [hu] at h; exact (Except.error.inj h).symm

theorem paramStep_error {m : Props} {piece : Str} {e : ParseError}
    (h : paramStep m piece = .error e) :
    e = .unrecognizedParameter (splitKeyValue piece).1 := by
  unfold paramStep at h
  cases hk : RRuleProperty.fromStr (splitKeyValue piece).1 with
  | error e2 =>
    rw [hk] at h
    simp only [Except.error.injEq] at h
    exact h ▸ RRuleProperty.fromStr_error hk
  | ok pr => rw [hk] at h; simp at h

theorem paramStep_ok {m : Props} {piece : Str} {m2 : Props}
    (h : paramStep m piece = .ok m2) :
    ∃ pr, RRuleProperty.fromStr (splitKeyValue piece).1 = .ok pr ∧
      m2 = m.insert pr (splitKeyValue piece).2 := by
  unfold paramStep at h
  cases hk : RRuleProperty.fromStr (splitKeyValue piece).1 with
  | error e2 => rw [hk] at h; simp at h
  | ok pr =>
    rw [hk] at h
    simp only [Except.ok.injEq] at h
    exact ⟨pr, rfl, h.symm⟩

theorem foldPieces_error (pieces : List Str) :
    ∀ (m : Props) (e : ParseError), pieces.foldlM paramStep m = .error e →
      ∃ piece ∈ pieces, e = .unrecognizedParameter (splitKeyValue piece).1 := by
  induction pieces with
  | nil => intro m e h; simp [List.foldlM_nil, pure, Except.pure] at h
  | cons p ps ih =>
    intro m e h
    rw [List.foldlM_cons] at h
    cases hs : paramStep m p with
    | error e2 =>
      rw [hs] at h
      simp only [bind, Except.bind, Except.error.injEq] at h
      exact ⟨p, List.mem_cons_self p ps, h ▸ paramStep_error hs⟩
    | ok m2 =>
      rw [hs] at h
      simp only [bind, Except.bind] at h
      obtain ⟨piece, hmem, he⟩ := ih m2 e h
      exact ⟨piece, List.mem_cons_of_mem p hmem, he⟩

theorem foldPieces_ok_values (pieces : List Str) :
    ∀ (m props : Props), pieces.foldlM paramStep m = .ok props →
      ∀ pr s, props pr = some s →
        m pr = some s ∨ ∃ piece ∈ pieces, (splitKeyValue piece).2 = s := by
  induction pieces with
  | nil =>
    intro m props h pr s hs
    simp only [List.foldlM_nil, pure, Except.pure, Except.ok.injEq] at h
    exact Or.inl (h ▸ hs)
  | cons p ps ih =>
    intro m props h pr s hs
    rw [List.foldlM_cons] at h
    cases hstep : paramStep m p with
    | error e2 => rw [hstep] at h; simp [bind, Except.bind] at h
    | ok m2 =>
      rw [hstep] at h
      simp only [bind, Except.bind] at h
      obtain ⟨pr2, hk, rfl⟩ := paramStep_ok hstep
      rcases ih _ _ h pr s hs with hm2 | ⟨piece, hmem, hv⟩
      · unfold Props.insert at hm2
        by_cases hpr : pr = pr2
        · rw [if_pos hpr] at hm2
          simp only [Option.some.injEq] at hm2
          exact Or.inr ⟨p, List.mem_cons_self p ps, hm2⟩
        · rw [if_neg hpr] at hm2
          exact Or.inl hm2
      · exact Or.inr ⟨piece, List.mem_cons_of_mem p hmem, hv⟩

theorem splitOnChar_head_prefix (sep : Char) (s : Str) :
    ∀ q qs, splitOnChar sep s = q :: qs → q <+: s := by
  induction s with
  | nil =>
    intro q qs h
    simp only [splitOnChar, List.cons.injEq] at h
    exact h.1 ▸ List.nil_prefix
  | cons c cs ih =>
    intro q qs h
    simp only [splitOnChar] at h
    by_cases hc : c = sep
    · rw [if_pos hc] at h
      simp only [List.cons.injEq] at h
      exact h.1 ▸ List.nil_prefix
    · rw [if_neg hc] at h
      cases hsplit : splitOnChar sep cs with
      | nil => exact absurd hsplit (splitOnChar_ne_nil sep cs)
      | cons q2 qs2 =>
        rw [hsplit] at h
        simp only [List.cons.injEq] at h
        obtain ⟨rfl, rfl⟩ := h
        exact List.cons_prefix_cons.mpr ⟨rfl, ih q2 qs2 hsplit⟩

theorem splitOnChar_infixOf (sep : Char) (s : Str) :
    ∀ p ∈ splitOnChar sep s, p <:+: s := by
  induction s with
  | nil =>
    intro p hp
    simp only [splitOnChar, List.mem_singleton] at hp
    exact hp ▸ List.nil_infix
  | cons c cs ih =>
    intro p hp
    simp only [splitOnChar] at hp
    by_cases hc : c = sep
    · rw [if_pos hc] at hp
      rcases List.mem_cons.mp hp with rfl | hp
      · exact List.nil_infix
      · exact List.infix_cons (ih p hp)
    · rw [if_neg hc] at hp
      cases hsplit : splitOnChar sep cs with
      | nil => exact absurd hsplit (splitOnChar_ne_nil sep cs)
      | cons q qs =>
        rw [hsplit] at hp
        rcases List.mem_cons.mp hp with rfl | hp
        · exact (List.cons_prefix_cons.mpr
            ⟨rfl, splitOnChar_head_prefix sep cs q qs hsplit⟩).isInfix
        · exact List.infix_cons (ih p (hsplit ▸ List.mem_cons_of_mem q hp))

theorem splitKeyValue_shape (piece : Str) :
    piece = (splitKeyValue piece).1 ++ '=' :: (splitKeyValue piece).2 ∨
      ((splitKeyValue piece).1 = piece ∧ (splitKeyValue piece).2 = []) := by
  induction piece with
  | nil => right; simp [splitKeyValue]
  | cons c cs ih =>
    by_cases hc : c = '='
    · subst hc
      left
      simp [splitKeyValue]
    · simp only [splitKeyValue, if_neg hc]
      rcases ih with h | ⟨h1, h2⟩
      · left
        conv_lhs => rw [h]
        rfl
      · right
        constructor
        · simp [h1]
        · simp [h2]

theorem splitKeyValue_key_infixOf (piece : Str) :
    (splitKeyValue piece).1 <:+: piece := by
  rcases splitKeyValue_shape piece with h | ⟨h1, _⟩
  · conv_rhs => rw [h]
    exact (List.prefix_append _ _).isInfix
  · rw [h1]

theorem splitKeyValue_value_infixOf (piece : Str) :
    (splitKeyValue piece).2 <:+: piece := by
  rcases splitKeyValue_shape piece with h | ⟨_, h2⟩
  · conv_rhs => rw [h]
    exact ((List.suffix_cons '=' _).trans (List.suffix_append _ _)).isInfix
  · rw [h2]
    exact List.nil_infix

theorem parseParameters_error {v : Str} {e : ParseError}
    (h : parseParameters v = .error e) :
    ∃ k, k <:+: v ∧ e = .unrecognizedParameter k := by
  obtain ⟨piece, hmem, he⟩ := foldPieces_error _ _ _ h
  exact ⟨(splitKeyValue piece).1,
    (splitKeyValue_key_infixOf piece).trans (splitOnChar_infixOf ';' v piece hmem), he⟩

theorem parseParameters_ok_values {v : Str} {props : Props}
    (h : parseParameters v = .ok props) :
    ∀ pr s, props pr = some s → s <:+: v := by
  intro pr s hs
  rcases foldPieces_ok_values _ _ _ h pr s hs with hempty | ⟨piece, hmem, hv⟩
  · simp [Props.empty] at hempty
  · exact hv ▸ (splitKeyValue_value_infixOf piece).trans
      (splitOnChar_infixOf ';' v piece hmem)

theorem errOf_eq_some {α : Type} {x : Except ParseError α} {e : ParseError}
    (h : some e = errOf x) : x = .error e := by
  cases x with
  | error e2 => simp only [errOf, Option.some.injEq] at h; rw [h]
  | ok a => simp [errOf] at h

theorem findSome?_id_mem {e : ParseError} :
    ∀ l : List (Option ParseError), l.findSome? id = some e → some e ∈ l := by
  intro l
  induction l with
  | nil => intro h; simp [List.findSome?] at h
  | cons a l ih =>
    intro h
    rw [List.findSome?_cons] at h
    cases ha : a with
    | none => rw [ha] at h; simp only [id] at h; exact List.mem_cons_of_mem _ (ih h)
    | some b => rw [ha] at h; simp only [id, Option.some.injEq] at h; simp [ha, h]

/-- Every error the field-evaluation stage can report: it names the field
through its constructor and carries either the fixed FREQ name or the raw
value text of one property. -/
theorem firstFieldError_shape {props : Props} {e : ParseError}
    (h : firstFieldError props = some e) :
    e = .missingProperty (str "FREQ") ∨
      ∃ pr s, props pr = some s ∧
        (e = .invalidFrequency s ∨ e = .invalidInterval s ∨ e = .invalidCount s ∨
         e = .invalidTimezone s ∨ e = .invalidDateTime s (str "UNTIL") ∨
         e = .invalidWeekdayStart s ∨ e = .invalidBySetPos s ∨
         e = .invalidByMonth s ∨ e = .invalidByMonthDay s ∨
         e = .invalidByYearDay s ∨ e = .invalidByWeekNo s ∨
         e = .invalidWeekday s ∨ e = .invalidByHour s ∨ e = .invalidByMinute s ∨
         e = .invalidBySecond s ∨ e = .invalidByEaster s ∨
         e = .invalidXIncludeDtstart s) := by
  have hmem := findSome?_id_mem _ h
  simp only [orderedErrors, List.mem_cons, List.not_mem_nil, or_false] at hmem
  rcases hmem with h1|h1|h1|h1|h1|h1|h1|h1|h1|h1|h1|h1|h1|h1|h1|h1|h1
  · rcases freqProp_error (errOf_eq_some h1) with he | ⟨f, hf, he⟩
    · exact Or.inl he
    · exact Or.inr ⟨.freq, f, hf, by simp [he]⟩
  · obtain ⟨s, hf, _, he⟩ := intervalProp_error (errOf_eq_some h1)
    exact Or.inr ⟨.interval, s, hf, by simp [he]⟩
  · obtain ⟨s, hf, _, he⟩ := countProp_error (errOf_eq_some h1)
    exact Or.inr ⟨.count, s, hf, by simp [he]⟩
  · obtain ⟨s, hf, he⟩ := localTzidProp_error (errOf_eq_some h1)
    exact Or.inr ⟨.localTzid, s, hf, by simp [he]⟩
  · rcases untilChain_error (errOf_eq_some h1) with ⟨s, hf, he⟩ | ⟨s, hf, he⟩
    · exact Or.inr ⟨.localTzid, s, hf, by simp [he]⟩
    · exact Or.inr ⟨.until, s, hf, by simp [he]⟩
  · obtain ⟨s, hf, _, he⟩ := weekStartProp_error (errOf_eq_some h1)
    exact Or.inr ⟨.wkst, s, hf, by simp [he]⟩
  · obtain ⟨s, hf, _, he⟩ := bySetPosProp_error (errOf_eq_some h1)
    exact Or.inr ⟨.bySetPos, s, hf, by simp [he]⟩
  · obtain ⟨s, hf, _, he⟩ := byMonthProp_error (errOf_eq_some h1)
    exact Or.inr ⟨.byMonth, s, hf, by simp [he]⟩
  · obtain ⟨s, hf, _, he⟩ := byMonthDayProp_error (errOf_eq_some h1)
    exact Or.inr ⟨.byMonthDay, s, hf, by simp [he]⟩
  · obtain ⟨s, hf, _, he⟩ := byYearDayProp_error (errOf_eq_some h1)
    exact Or.inr ⟨.byYearDay, s, hf, by simp [he]⟩
  · obtain ⟨s, hf, _, he⟩ := byWeekNoProp_error (errOf_eq_some h1)
    exact Or.inr ⟨.byWeekNo, s, hf, by simp [he]⟩
  · obtain ⟨s, hf, he⟩ := byWeekdayProp_error (errOf_eq_some h1)
    exact Or.inr ⟨.byDay, s, hf, by simp [he]⟩
  · obtain ⟨s, hf, _, he⟩ := byHourProp_error (errOf_eq_some h1)
    exact Or.inr ⟨.byHour, s, hf, by simp [he]⟩
  · obtain ⟨s, hf, _, he⟩ := byMinuteProp_error (errOf_eq_some h1)
    exact Or.inr ⟨.byMinute, s, hf, by simp [he]⟩
  · obtain ⟨s, hf, _, he⟩ := bySecondProp_error (errOf_eq_some h1)
    exact Or.inr ⟨.bySecond, s, hf, by simp [he]⟩
  · obtain ⟨s, hf, _, he⟩ := byEasterProp_error (errOf_eq_some h1)
    exact Or.inr ⟨.byEaster, s, hf, by simp [he]⟩
  · obtain ⟨s, hf, he⟩ := includeDtstartProp_error (errOf_eq_some h1)
    exact Or.inr ⟨.xIncludeDtstart, s, hf, by simp [he]⟩

theorem firstFieldError_not_ppns {props : Props} {e : ParseError}
    (h : firstFieldError props = some e) :
    ∀ p, e ≠ .propertyParametersNotSupported p := by
  intro p heq
  rcases firstFieldError_shape h with h1 | ⟨pr, s, _, h1⟩
  · rw [heq] at h1; exact ParseError.noConfusion h1
  · rw [heq] at h1
    rcases h1 with h1|h1|h1|h1|h1|h1|h1|h1|h1|h1|h1|h1|h1|h1|h1|h1|h1 <;>
      exact ParseError.noConfusion h1

/-- C10: when one value string carries several independently invalid
fields, the single error reported is the first failing field in the fixed
internal evaluation order FREQ, INTERVAL, COUNT, LOCAL-TZID, UNTIL, WKST,
BYSETPOS, BYMONTH, BYMONTHDAY, BYYEARDAY, BYWEEKNO, BYDAY, BYHOUR,
BYMINUTE, BYSECOND, BYEASTER, X-INCLUDE-DTSTART (the order listed in
`orderedErrors`); the key-to-value mapping has already erased the keys'
textual positions, so they play no role. -/
theorem claim_c10 (v : Str) (props : Props) (e : ParseError)
    (h : parseParameters v = .ok props) :
    rruleFromContentLine ⟨none, v⟩ = .error e ↔ firstFieldError props = some e := by
  have hv : rruleFromContentLine ⟨none, v⟩ = propsToRRule props := by
    simp [rruleFromContentLine, h, bind, Except.bind]
  rw [hv]
  exact propsToRRule_error_iff props e

/-- Witness for C10: a value string with an invalid COUNT and an invalid
BYHOUR reports `InvalidCount`, and one with an invalid INTERVAL and an
invalid LOCAL-TZID reports `InvalidInterval`, regardless of key order. -/
theorem claim_c10_witness :
    rruleFromContentLine ⟨none, str "BYHOUR=99;FREQ=DAILY;COUNT=x"⟩ =
        .error (.invalidCount (str "x")) ∧
      rruleFromContentLine ⟨none, str "LOCAL-TZID=Nowhere;FREQ=DAILY;INTERVAL=0"⟩ =
        .error (.invalidInterval (str "0")) := by
  constructor
  · exact (claim_c10 (str "BYHOUR=99;FREQ=DAILY;COUNT=x") _ _ rfl).mpr rfl
  · exact (claim_c10 (str "LOCAL-TZID=Nowhere;FREQ=DAILY;INTERVAL=0") _ _ rfl).mpr rfl

/-- C7: parsing an RRULE content line fails with
`PropertyParametersNotSupported` carrying the parameter text exactly when
the line's parameter string is present and non-empty (a present-but-empty
parameter string never raises it), and in that case the value string is
never examined: any value string gives the same result. -/
theorem claim_c7 (params : Option Str) (v : Str) :
    (∀ p, rruleFromContentLine ⟨params, v⟩ =
        .error (.propertyParametersNotSupported p) ↔ (params = some p ∧ p ≠ [])) ∧
    (∀ p, params = some p → p ≠ [] →
      ∀ v2, rruleFromContentLine ⟨params, v⟩ = rruleFromContentLine ⟨params, v2⟩) := by
  constructor
  · intro p
    constructor
    · intro h
      cases params with
      | some q =>
        by_cases hq : q = []
        · subst hq
          simp only [rruleFromContentLine, ne_eq, not_true_eq_false, if_false] at h
          exfalso
          cases hpp : parseParameters v with
          | error e2 =>
            rw [hpp] at h
            simp only [bind, Except.bind, Except.error.injEq] at h
            obtain ⟨k, _, he⟩ := parseParameters_error hpp
            rw [h] at he
            exact ParseError.noConfusion he
          | ok props =>
            rw [hpp] at h
            simp only [bind, Except.bind] at h
            exact firstFieldError_not_ppns
              ((propsToRRule_error_iff props _).mp h) p rfl
        · simp only [rruleFromContentLine, ne_eq, hq, not_false_eq_true,
            if_true, Except.error.injEq, ParseError.propertyParametersNotSupported.injEq] at h
          exact ⟨h ▸ rfl, h ▸ hq⟩
      | none =>
        exfalso
        simp only [rruleFromContentLine] at h
        cases hpp : parseParameters v with
        | error e2 =>
          rw [hpp] at h
          simp only [bind, Except.bind, Except.error.injEq] at h
          obtain ⟨k, _, he⟩ := parseParameters_error hpp
          rw [h] at he
          exact ParseError.noConfusion he
        | ok props =>
          rw [hpp] at h
          simp only [bind, Except.bind] at h
          exact firstFieldError_not_ppns
            ((propsToRRule_error_iff props _).mp h) p rfl
    · rintro ⟨rfl, hne⟩
      simp [rruleFromContentLine, hne]
  · rintro p rfl hne v2
    simp [rruleFromContentLine, hne]

/-- Witness for C7: a non-empty parameter string is rejected with the
parameter text, whatever the value string holds. -/
theorem claim_c7_witness :
    (rruleFromContentLine ⟨some (str "TZID=Europe/London"), str "BYHOUR=4"⟩ =
        .error (.propertyParametersNotSupported (str "TZID=Europe/London"))) ∧
      rruleFromContentLine ⟨some (str "TZID=Europe/London"), str "BYHOUR=4"⟩ =
        rruleFromContentLine ⟨some (str "TZID=Europe/London"), str "garbage"⟩ := by
  constructor
  · exact (claim_c7 (some (str "TZID=Europe/London")) (str "BYHOUR=4")).1
      (str "TZID=Europe/London") |>.mpr ⟨rfl, by decide⟩
  · exact (claim_c7 (some (str "TZID=Europe/London")) (str "BYHOUR=4")).2
      (str "TZID=Europe/London") rfl (by decide) (str "garbage")

/-- C4: the interval of a parsed descriptor is a positive integer; a
value string without an INTERVAL key parses (when the rest succeeds) with
interval 1; an INTERVAL value that does not parse as a positive integer
(INTERVAL=0 included) fails with `InvalidInterval` carrying the offending
text, FREQ itself being well-formed. -/
theorem claim_c4 :
    (∀ (v : Str) (props : Props) (r : RRuleUnvalidated),
      parseParameters v = .ok props → rruleFromContentLine ⟨none, v⟩ = .ok r →
        1 ≤ r.interval) ∧
    (∀ (v : Str) (props : Props) (r : RRuleUnvalidated),
      parseParameters v = .ok props → props .interval = none →
        rruleFromContentLine ⟨none, v⟩ = .ok r → r.interval = 1) ∧
    (∀ (v : Str) (props : Props) (s : Str),
      parseParameters v = .ok props → props .interval = some s →
        parsePosNat s = none → (∃ f, freqProp props = .ok f) →
        rruleFromContentLine ⟨none, v⟩ = .error (.invalidInterval s)) := by
  have hline : ∀ (v : Str) (props : Props), parseParameters v = .ok props →
      rruleFromContentLine ⟨none, v⟩ = propsToRRule props := by
    intro v props h
    simp [rruleFromContentLine, h, bind, Except.bind]
  refine ⟨?_, ?_, ?_⟩
  · intro v props r hp hok
    rw [hline v props hp] at hok
    have hi := ((propsToRRule_ok_iff props r).mp hok).2.1
    cases hf : props .interval with
    | none =>
      simp only [intervalProp, hf, Except.ok.injEq] at hi
      omega
    | some s =>
      simp only [intervalProp, hf] at hi
      cases hps : parsePosNat s with
      | none => simp [hps] at hi
      | some n =>
        simp only [hps, Except.ok.injEq] at hi
        cases hu : parseUInt s with
        | none => simp [parsePosNat, hu] at hps
        | some m =>
          simp only [parsePosNat, hu] at hps
          by_cases hm : m = 0
          · simp [if_pos hm] at hps
          · rw [if_neg hm] at hps
            simp only [Option.some.injEq] at hps
            omega
  · intro v props r hp hnone hok
    rw [hline v props hp] at hok
    have hi := ((propsToRRule_ok_iff props r).mp hok).2.1
    simp only [intervalProp, hnone, Except.ok.injEq] at hi
    omega
  · intro v props s hp hsome hpos ⟨f, hf⟩
    rw [hline v props hp]
    refine (propsToRRule_error_iff props _).mpr ?_
    have hi : intervalProp props = .error (.invalidInterval s) := by
      simp [intervalProp, hsome, hpos]
    simp only [firstFieldError, orderedErrors, errOf, hf, hi]
    rw [List.findSome?_cons, List.findSome?_cons]
    simp

/-- Witness for C4: INTERVAL absent defaults to 1; INTERVAL=0 is rejected
with `InvalidInterval("0")`. -/
theorem claim_c4_witness :
    (∃ r, rruleFromContentLine ⟨none, str "FREQ=DAILY"⟩ = .ok r ∧ r.interval = 1) ∧
      rruleFromContentLine ⟨none, str "FREQ=DAILY;INTERVAL=0"⟩ =
        .error (.invalidInterval (str "0")) := by
  constructor
  · refine ⟨_, rfl, ?_⟩
    exact claim_c4.2.1 (str "FREQ=DAILY") _ _ rfl rfl rfl
  · exact claim_c4.2.2 (str "FREQ=DAILY;INTERVAL=0") _ (str "0") rfl rfl rfl
      ⟨.daily, rfl⟩

theorem parseStrToVec_none_of_bad {α : Type} (pel : Str → Option α)
    (check : α → Bool) (s x : Str) (hx : x ∈ splitOnChar ',' s)
    (hbad : pel x = none ∨ ∃ v, pel x = some v ∧ check v = false) :
    parseStrToVec pel check s = none := by
  unfold parseStrToVec
  refine (traverseOpt_eq_none_iff _ _).mpr ⟨x, hx, ?_⟩
  rcases hbad with h | ⟨v, hv, hc⟩
  · simp [h]
  · simp [hv, hc]

/-- C5: a BY-list value containing any element that fails to parse or
falls outside the field's range fails with the field's dedicated error
carrying the whole raw text, whether the offending element stands alone or
follows in-range elements; stated for BYHOUR (below 24), BYMINUTE and
BYSECOND (below 60), BYMONTH (1 to 12), BYMONTHDAY (-31 to 31), BYYEARDAY
(-366 to 366) and BYWEEKNO (-53 to 53). -/
theorem claim_c5 (props : Props) :
    (∀ s, props .byHour = some s →
      (∃ x ∈ splitOnChar ',' s,
        parseUInt x = none ∨ ∃ n, parseUInt x = some n ∧ 24 ≤ n) →
      byHourProp props = .error (.invalidByHour s)) ∧
    (∀ s, props .byMinute = some s →
      (∃ x ∈ splitOnChar ',' s,
        parseUInt x = none ∨ ∃ n, parseUInt x = some n ∧ 60 ≤ n) →
      byMinuteProp props = .error (.invalidByMinute s)) ∧
    (∀ s, props .bySecond = some s →
      (∃ x ∈ splitOnChar ',' s,
        parseUInt x = none ∨ ∃ n, parseUInt x = some n ∧ 60 ≤ n) →
      bySecondProp props = .error (.invalidBySecond s)) ∧
    (∀ s, props .byMonth = some s →
      (∃ x ∈ splitOnChar ',' s,
        parseUInt x = none ∨ ∃ n, parseUInt x = some n ∧ (n < 1 ∨ 12 < n)) →
      byMonthProp props = .error (.invalidByMonth s)) ∧
    (∀ s, props .byMonthDay = some s →
      (∃ x ∈ splitOnChar ',' s,
        parseInt x = none ∨ ∃ n, parseInt x = some n ∧ (n < -31 ∨ 31 < n)) →
      byMonthDayProp props = .error (.invalidByMonthDay s)) ∧
    (∀ s, props .byYearDay = some s →
      (∃ x ∈ splitOnChar ',' s,
        parseInt x = none ∨ ∃ n, parseInt x = some n ∧ (n < -366 ∨ 366 < n)) →
      byYearDayProp props = .error (.invalidByYearDay s)) ∧
    (∀ s, props .byWeekNo = some s →
      (∃ x ∈ splitOnChar ',' s,
        parseInt x = none ∨ ∃ n, parseInt x = some n ∧ (n < -53 ∨ 53 < n)) →
      byWeekNoProp props = .error (.invalidByWeekNo s)) := by
  refine ⟨?_, ?_, ?_, ?_, ?_, ?_, ?_⟩ <;>
    (intro s hs hex
     obtain ⟨x, hx, hbad⟩ := hex) <;>
    [exact byHourProp_of_none hs (parseStrToVec_none_of_bad _ _ s x hx
      (hbad.imp id (fun ⟨n, hn, hle⟩ => ⟨n, hn, by simp; omega⟩)));
     exact byMinuteProp_of_none hs (parseStrToVec_none_of_bad _ _ s x hx
      (hbad.imp id (fun ⟨n, hn, hle⟩ => ⟨n, hn, by simp; omega⟩)));
     exact bySecondProp_of_none hs (parseStrToVec_none_of_bad _ _ s x hx
      (hbad.imp id (fun ⟨n, hn, hle⟩ => ⟨n, hn, by simp; omega⟩)));
     exact byMonthProp_of_none hs (parseStrToVec_none_of_bad _ _ s x hx
      (hbad.imp id (fun ⟨n, hn, hle⟩ => ⟨n, hn, by simp; omega⟩)));
     exact byMonthDayProp_of_none hs (parseStrToVec_none_of_bad _ _ s x hx
      (hbad.imp id (fun ⟨n, hn, hle⟩ => ⟨n, hn, by simp; omega⟩)));
     exact byYearDayProp_of_none hs (parseStrToVec_none_of_bad _ _ s x hx
      (hbad.imp id (fun ⟨n, hn, hle⟩ => ⟨n, hn, by simp; omega⟩)));
     exact byWeekNoProp_of_none hs (parseStrToVec_none_of_bad _ _ s x hx
      (hbad.imp id (fun ⟨n, hn, hle⟩ => ⟨n, hn, by simp; omega⟩)))]

/-- Witness for C5: BYHOUR=24 alone and BYHOUR=5,6,25 after in-range
elements both fail with the by-hour error carrying the raw text, and a
signed field (BYMONTHDAY=32) fails with its own error. -/
theorem claim_c5_witness :
    byHourProp (Props.insert Props.empty .byHour (str "24")) =
        .error (.invalidByHour (str "24")) ∧
      byHourProp (Props.insert Props.empty .byHour (str "5,6,25")) =
        .error (.invalidByHour (str "5,6,25")) ∧
      byMonthDayProp (Props.insert Props.empty .byMonthDay (str "32")) =
        .error (.invalidByMonthDay (str "32")) := by
  refine ⟨?_, ?_, ?_⟩
  · exact (claim_c5 _).1 (str "24") rfl
      ⟨str "24", by decide, Or.inr ⟨24, rfl, by omega⟩⟩
  · exact (claim_c5 _).1 (str "5,6,25") rfl
      ⟨str "25", by decide, Or.inr ⟨25, rfl, by omega⟩⟩
  · exact (claim_c5 _).2.2.2.2.1 (str "32") rfl
      ⟨str "32", by decide, Or.inr ⟨32, rfl, by omega⟩⟩

/-- The recognized property key of one `KEY=VALUE` piece, when any. -/
def keyOf (piece : Str) : Option RRuleProperty :=
  match RRuleProperty.fromStr (splitKeyValue piece).1 with
  | .ok p => some p
  | .error _ => none

/-- Remove every piece carrying key `k` that has a later piece with the
same key, keeping only the last occurrence of `k`. -/
def dropEarlierDups (k : RRuleProperty) : List Str → List Str
  | [] => []
  | p :: rest =>
    if keyOf p = some k ∧ ∃ q ∈ rest, keyOf q = some k then dropEarlierDups k rest
    else p :: dropEarlierDups k rest

theorem insert_insert_same (m : Props) (k : RRuleProperty) (v v2 : Str) :
    (m.insert k v).insert k v2 = m.insert k v2 := by
  funext pr
  unfold Props.insert
  by_cases h : pr = k <;> simp [h]

theorem insert_insert_comm (m : Props) {k k2 : RRuleProperty} (v v2 : Str)
    (h : k ≠ k2) : (m.insert k v).insert k2 v2 = (m.insert k2 v2).insert k v := by
  funext pr
  unfold Props.insert
  by_cases h1 : pr = k2 <;> by_cases h2 : pr = k <;> simp_all

theorem keyOf_eq_some {piece : Str} {k : RRuleProperty} (h : keyOf piece = some k) :
    RRuleProperty.fromStr (splitKeyValue piece).1 = .ok k := by
  unfold keyOf at h
  cases hk : RRuleProperty.fromStr (splitKeyValue piece).1 with
  | ok p => rw [hk] at h; simp only [Option.some.injEq] at h; rw [h]
  | error e => rw [hk] at h; simp at h

theorem foldPieces_insert_irrelevant (k : RRuleProperty) :
    ∀ rest : List Str, (∃ q ∈ rest, keyOf q = some k) →
      ∀ (m : Props) (v0 : Str),
        rest.foldlM paramStep (m.insert k v0) = rest.foldlM paramStep m := by
  intro rest
  induction rest with
  | nil => rintro ⟨q, hq, _⟩; simp at hq
  | cons p rest ih =>
    rintro ⟨q, hq, hkq⟩ m v0
    rw [List.foldlM_cons, List.foldlM_cons]
    by_cases hp : keyOf p = some k
    · have hk := keyOf_eq_some hp
      simp only [paramStep, hk]
      rw [insert_insert_same]
    · rcases List.mem_cons.mp hq with rfl | hq2
      · exact absurd hkq hp
      · cases hstep : RRuleProperty.fromStr (splitKeyValue p).1 with
        | error e => simp only [paramStep, hstep]
        | ok pr =>
          have hprk : k ≠ pr := by
            intro heq
            apply hp
            unfold keyOf
            rw [hstep, heq]
          simp only [paramStep, hstep]
          simp only [bind, Except.bind]
          rw [insert_insert_comm m _ _ hprk]
          exact ih ⟨q, hq2, hkq⟩ (m.insert pr (splitKeyValue p).2) v0

theorem foldPieces_dropEarlierDups (k : RRuleProperty) :
    ∀ (pieces : List Str) (m : Props),
      (dropEarlierDups k pieces).foldlM paramStep m =
        pieces.foldlM paramStep m := by
  intro pieces
  induction pieces with
  | nil => intro m; simp [dropEarlierDups]
  | cons p rest ih =>
    intro m
    unfold dropEarlierDups
    by_cases hcond : keyOf p = some k ∧ ∃ q ∈ rest, keyOf q = some k
    · rw [if_pos hcond]
      obtain ⟨hp, hex⟩ := hcond
      have hk := keyOf_eq_some hp
      rw [List.foldlM_cons]
      simp only [paramStep, hk]
      simp only [bind, Except.bind]
      rw [foldPieces_insert_irrelevant k rest hex m]
      exact ih m
    · rw [if_neg hcond]
      rw [List.foldlM_cons, List.foldlM_cons]
      cases hstep : paramStep m p with
      | error e => simp [bind, Except.bind]
      | ok m2 =>
        simp only [bind, Except.bind]
        exact ih m2

theorem dropEarlierDups_subset (k : RRuleProperty) :
    ∀ pieces, ∀ p ∈ dropEarlierDups k pieces, p ∈ pieces := by
  intro pieces
  induction pieces with
  | nil => simp [dropEarlierDups]
  | cons q rest ih =>
    intro p hp
    unfold dropEarlierDups at hp
    split at hp
    · exact List.mem_cons_of_mem q (ih p hp)
    · rcases List.mem_cons.mp hp with rfl | hp2
      · exact List.mem_cons_self p rest
      · exact List.mem_cons_of_mem q (ih p hp2)

theorem dropEarlierDups_eq_nil (k : RRuleProperty) :
    ∀ pieces, dropEarlierDups k pieces = [] → pieces = [] := by
  intro pieces
  induction pieces with
  | nil => intro _; rfl
  | cons q rest ih =>
    intro h
    unfold dropEarlierDups at h
    split at h
    · rename_i hcond
      obtain ⟨_, x, hx, hkx⟩ := hcond
      rw [ih h] at hx
      simp at hx
    · exact absurd h (by simp)

/-- C6: a value string in which a key appears several times parses
exactly as the same string with only the last occurrence of that key kept;
the repetition itself never causes a failure. -/
theorem claim_c6 (v : Str) (k : RRuleProperty)
    (hdup : 2 ≤ ((splitOnChar ';' v).filter
      (fun p => keyOf p = some k)).length) :
    rruleFromContentLine ⟨none, joinSep ';'
        (dropEarlierDups k (splitOnChar ';' v))⟩ =
      rruleFromContentLine ⟨none, v⟩ := by
  clear hdup
  simp only [rruleFromContentLine]
  have hsplit : splitOnChar ';' (joinSep ';' (dropEarlierDups k (splitOnChar ';' v))) =
      dropEarlierDups k (splitOnChar ';' v) := by
    apply splitOnChar_joinSep
    · intro hnil
      exact splitOnChar_ne_nil ';' v (dropEarlierDups_eq_nil k _ hnil)
    · intro p hp
      exact not_mem_of_mem_splitOnChar ';' v p (dropEarlierDups_subset k _ p hp)
  unfold parseParameters
  rw [hsplit, foldPieces_dropEarlierDups k (splitOnChar ';' v) Props.empty]

/-- Witness for C6: FREQ repeated twice parses as if only the last FREQ
were present, yielding the WEEKLY descriptor. -/
theorem claim_c6_witness :
    rruleFromContentLine ⟨none, joinSep ';'
        (dropEarlierDups .freq (splitOnChar ';' (str "FREQ=DAILY;FREQ=WEEKLY;COUNT=2")))⟩ =
      rruleFromContentLine ⟨none, str "FREQ=DAILY;FREQ=WEEKLY;COUNT=2"⟩ ∧
    (∃ r, rruleFromContentLine ⟨none, str "FREQ=DAILY;FREQ=WEEKLY;COUNT=2"⟩ =
      .ok r ∧ r.freq = .weekly ∧ r.count = some 2) := by
  constructor
  · exact claim_c6 (str "FREQ=DAILY;FREQ=WEEKLY;COUNT=2") .freq (by decide)
  · exact ⟨_, rfl, rfl, rfl⟩

/-- A datetime text is floating when it parses and carries no UTC
marker. -/
def floatingDatestring (s : Str) : Bool :=
  match parseDatestringRaw s with
  | some (_, utc) => !utc
  | none => false

theorem floatingDatestring_shape {s : Str} (h : floatingDatestring s = true) :
    ∃ f, parseDatestringRaw s = some (f, false) := by
  unfold floatingDatestring at h
  cases hr : parseDatestringRaw s with
  | none => rw [hr] at h; simp at h
  | some p =>
    obtain ⟨f, utc⟩ := p
    rw [hr] at h
    simp only [Bool.not_eq_true'] at h
    subst h
    exact ⟨f, rfl⟩

/-- C1: when a value string carries both LOCAL-TZID (resolving to zone z)
and a floating UNTIL text, the timezone is resolved before UNTIL is parsed
— whatever the two keys' textual order, since the key-to-value mapping has
erased it — and the descriptor's until field is the floating wall-clock
fields interpreted in z, not in the host's ambient zone: the very same
wall-clock fields that a LOCAL-TZID-less parse would mark ambient. -/
theorem claim_c1 (v : Str) (props : Props) (tzs us : Str) (z : Tz)
    (r : RRuleUnvalidated)
    (hp : parseParameters v = .ok props)
    (htz : props .localTzid = some tzs)
    (hz : parseTimezone tzs = .ok z)
    (hus : props .until = some us)
    (hfloat : floatingDatestring us = true)
    (hok : rruleFromContentLine ⟨none, v⟩ = .ok r) :
    r.localTzid = some z ∧
      ∃ f, r.untilDt = some ⟨f, .zoned z⟩ ∧
        datestringToDateWithLocalTzid us (str "UNTIL") none = .ok ⟨f, .ambient⟩ := by
  have hline : rruleFromContentLine ⟨none, v⟩ = propsToRRule props := by
    simp [rruleFromContentLine, hp, bind, Except.bind]
  rw [hline] at hok
  have hfields := (propsToRRule_ok_iff props r).mp hok
  have hl : localTzidProp props = .ok r.localTzid := hfields.2.2.2.1
  have hu : untilChain props = .ok r.untilDt := hfields.2.2.2.2.1
  have hlocal : localTzidProp props = .ok (some z) := by
    simp [localTzidProp, htz, hz, Except.map]
  have hlz : r.localTzid = some z := by
    rw [hlocal] at hl
    exact (Except.ok.inj hl).symm
  obtain ⟨f, hraw⟩ := floatingDatestring_shape hfloat
  have huntil : untilProp props (some z) = .ok r.untilDt := by
    unfold untilChain at hu
    rw [hlocal] at hu
    simpa [bind, Except.bind] using hu
  have hval : validDate f = true := by
    by_contra hnv
    simp only [untilProp, hus, datestringToDateWithLocalTzid, hraw,
      Bool.not_eq_true] at huntil
    rw [if_neg (by simp [hnv])] at huntil
    simp [Except.map] at huntil
  refine ⟨hlz, f, ?_, ?_⟩
  · simp only [untilProp, hus, datestringToDateWithLocalTzid, hraw,
      if_pos hval, Except.map, Except.ok.injEq] at huntil
    rw [← huntil]
    rfl
  · simp only [datestringToDateWithLocalTzid, hraw, if_pos hval]
    rfl

/-- Witness for C1: with zone and UNTIL in either textual order, the
descriptor carries the America/New_York handle and the wall-clock
1997-09-04 09:00:00 interpreted in that zone, and both orders yield the
same descriptor. -/
theorem claim_c1_witness :
    (∃ r, rruleFromContentLine
        ⟨none, str "FREQ=DAILY;LOCAL-TZID=America/New_York;UNTIL=19970904T090000"⟩ =
          .ok r ∧
      r.localTzid = some .americaNewYork ∧
      ∃ f, r.untilDt = some ⟨f, .zoned .americaNewYork⟩ ∧
        datestringToDateWithLocalTzid (str "19970904T090000") (str "UNTIL") none =
          .ok ⟨f, .ambient⟩) ∧
    rruleFromContentLine
        ⟨none, str "FREQ=DAILY;LOCAL-TZID=America/New_York;UNTIL=19970904T090000"⟩ =
      rruleFromContentLine
        ⟨none, str "FREQ=DAILY;UNTIL=19970904T090000;LOCAL-TZID=America/New_York"⟩ := by
  constructor
  · refine ⟨_, rfl, ?_⟩
    exact claim_c1
      (str "FREQ=DAILY;LOCAL-TZID=America/New_York;UNTIL=19970904T090000") _
      (str "America/New_York") (str "19970904T090000")
      .americaNewYork _ rfl rfl rfl rfl rfl rfl
  · rfl

/-- What a well-reported error must name: the constructor identifies the
offending field, and the payload is the rejected raw text — the parameter
string for the line-level rejection, the fixed FREQ name for the missing
key, and otherwise text taken verbatim from the value string. -/
def errorNamesInput (parameters : Option Str) (value : Str) : ParseError → Prop
  | .propertyParametersNotSupported p => parameters = some p
  | .missingProperty n => n = str "FREQ"
  | .unrecognizedParameter s => s <:+: value
  | .invalidFrequency s => s <:+: value
  | .invalidInterval s => s <:+: value
  | .invalidCount s => s <:+: value
  | .invalidTimezone s => s <:+: value
  | .invalidDateTime s p2 => s <:+: value ∧ p2 = str "UNTIL"
  | .invalidWeekdayStart s => s <:+: value
  | .invalidBySetPos s => s <:+: value
  | .invalidByMonth s => s <:+: value
  | .invalidByMonthDay s => s <:+: value
  | .invalidByYearDay s => s <:+: value
  | .invalidByWeekNo s => s <:+: value
  | .invalidWeekday s => s <:+: value
  | .invalidByHour s => s <:+: value
  | .invalidByMinute s => s <:+: value
  | .invalidBySecond s => s <:+: value
  | .invalidByEaster s => s <:+: value
  | .invalidXIncludeDtstart s => s <:+: value

theorem bind_result_names (params : Option Str) (v : Str) :
    (∃ r, (parseParameters v >>= propsToRRule) = .ok r) ∨
      ∃ e, (parseParameters v >>= propsToRRule) = .error e ∧
        errorNamesInput params v e := by
  cases hpp : parseParameters v with
  | error e2 =>
    right
    obtain ⟨k, hk, he⟩ := parseParameters_error hpp
    refine ⟨e2, by simp [bind, Except.bind, hpp], ?_⟩
    rw [he]
    exact hk
  | ok props =>
    cases hres : propsToRRule props with
    | ok r => exact Or.inl ⟨r, by simp [bind, Except.bind, hpp, hres]⟩
    | error e =>
      right
      refine ⟨e, by simp [bind, Except.bind, hpp, hres], ?_⟩
      rcases firstFieldError_shape ((propsToRRule_error_iff props e).mp hres) with
        he | ⟨pr, s, hs, hdisj⟩
      · rw [he]; rfl
      · have hinf : s <:+: v := parseParameters_ok_values hpp pr s hs
        rcases hdisj with h|h|h|h|h|h|h|h|h|h|h|h|h|h|h|h|h <;>
          (rw [h]; first | exact hinf | exact ⟨hinf, rfl⟩)

/-- C9: whatever the input content line, parsing terminates with either a
descriptor or a typed error whose constructor names the offending field
and whose payload is the rejected raw text drawn from the input itself; no
input reaches an unguarded partial operation, every case above being
total. -/
theorem claim_c9 (cl : ContentLineCaptures) :
    (∃ r, rruleFromContentLine cl = .ok r) ∨
      ∃ e, rruleFromContentLine cl = .error e ∧
        errorNamesInput cl.parameters cl.value e := by
  obtain ⟨params, v⟩ := cl
  cases params with
  | some p =>
    by_cases hp : p = []
    · subst hp
      simpa [rruleFromContentLine] using bind_result_names (some []) v
    · right
      refine ⟨.propertyParametersNotSupported p, ?_, rfl⟩
      simp [rruleFromContentLine, hp]
  | none =>
    simpa [rruleFromContentLine] using bind_result_names none v

/-- Two `KEY=VALUE` pieces that differ only in letter case where case is
immaterial: the keys agree up to case and are recognized, and the values
are identical unless the key is FREQ or WKST with a valid vocabulary
value, in which case the value too may differ only in case. -/
def caseEquivPiece (p q : Str) : Prop :=
  upper (splitKeyValue p).1 = upper (splitKeyValue q).1 ∧
  (∃ pr, RRuleProperty.fromStr (splitKeyValue p).1 = .ok pr) ∧
  ((splitKeyValue q).2 = (splitKeyValue p).2 ∨
   (RRuleProperty.fromStr (splitKeyValue p).1 = .ok .freq ∧
    upper (splitKeyValue q).2 = upper (splitKeyValue p).2 ∧
    ∃ f, Frequency.fromStr (splitKeyValue p).2 = .ok f) ∨
   (RRuleProperty.fromStr (splitKeyValue p).1 = .ok .wkst ∧
    upper (splitKeyValue q).2 = upper (splitKeyValue p).2 ∧
    ∃ w, strToWeekday (splitKeyValue p).2 = some w))

/-- Values of one key in two equivalent property maps: identical, or (for
FREQ and WKST) valid vocabulary words agreeing up to case. -/
def valEquiv (pr : RRuleProperty) (a b : Option Str) : Prop :=
  a = b ∨
  ∃ va vb, a = some va ∧ b = some vb ∧ upper vb = upper va ∧
    ((pr = .freq ∧ ∃ f, Frequency.fromStr va = .ok f) ∨
     (pr = .wkst ∧ ∃ w, strToWeekday va = some w))

/-- Key-wise equivalence of two property maps. -/
def propsEquiv (m m2 : Props) : Prop := ∀ pr, valEquiv pr (m pr) (m2 pr)

theorem RRuleProperty.fromStr_ok_congr {k k2 : Str} {pr : RRuleProperty}
    (h : upper k = upper k2) (hok : RRuleProperty.fromStr k = .ok pr) :
    RRuleProperty.fromStr k2 = .ok pr := by
  unfold RRuleProperty.fromStr at hok ⊢
  rw [← h]
  cases hu : RRuleProperty.fromUpper (upper k) with
  | some p =>
    simp only [hu] at hok ⊢
    exact hok
  | none =>
    simp only [hu] at hok
    exact absurd hok (by simp)

theorem Frequency.fromStr_okCongr {s s2 : Str} {f : Frequency}
    (h : upper s = upper s2) (hok : Frequency.fromStr s = .ok f) :
    Frequency.fromStr s2 = .ok f := by
  simp only [Frequency.fromStr] at hok ⊢
  rw [← h]
  split_ifs at hok ⊢ <;> simp_all

theorem strToWeekday_congr {s s2 : Str} (h : upper s = upper s2) :
    strToWeekday s = strToWeekday s2 := by
  unfold strToWeekday
  rw [h]

theorem foldPieces_caseEquiv {l l2 : List Str}
    (hall : List.Forall₂ caseEquivPiece l l2) :
    ∀ m m2 : Props, propsEquiv m m2 →
      ∃ mf mf2, l.foldlM paramStep m = .ok mf ∧
        l2.foldlM paramStep m2 = .ok mf2 ∧ propsEquiv mf mf2 := by
  induction hall with
  | nil =>
    intro m m2 he
    exact ⟨m, m2, by simp [List.foldlM_nil, pure, Except.pure],
      by simp [List.foldlM_nil, pure, Except.pure], he⟩
  | cons hpq _ ih =>
    rename_i p q l' l2' _
    intro m m2 he
    obtain ⟨hk, ⟨pr, hok⟩, hval⟩ := hpq
    have hok2 : RRuleProperty.fromStr (splitKeyValue q).1 = .ok pr :=
      RRuleProperty.fromStr_ok_congr hk hok
    have hstep : paramStep m p = .ok (m.insert pr (splitKeyValue p).2) := by
      simp [paramStep, hok]
    have hstep2 : paramStep m2 q = .ok (m2.insert pr (splitKeyValue q).2) := by
      simp [paramStep, hok2]
    have hequiv : propsEquiv (m.insert pr (splitKeyValue p).2)
        (m2.insert pr (splitKeyValue q).2) := by
      intro pr2
      unfold Props.insert
      by_cases hp2 : pr2 = pr
      · rw [if_pos hp2, if_pos hp2]
        rcases hval with hv | ⟨hfreq, hup, f, hf⟩ | ⟨hwkst, hup, w, hw⟩
        · left; rw [hv]
        · have hpr : pr = .freq := by
            rw [hok] at hfreq
            exact Except.ok.inj hfreq
          right
          exact ⟨_, _, rfl, rfl, hup, Or.inl ⟨hp2 ▸ hpr, f, hf⟩⟩
        · have hpr : pr = .wkst := by
            rw [hok] at hwkst
            exact Except.ok.inj hwkst
          right
          exact ⟨_, _, rfl, rfl, hup, Or.inr ⟨hp2 ▸ hpr, w, hw⟩⟩
      · rw [if_neg hp2, if_neg hp2]
        exact he pr2
    obtain ⟨mf, mf2, h1, h2, h3⟩ := ih _ _ hequiv
    refine ⟨mf, mf2, ?_, ?_, h3⟩
    · rw [List.foldlM_cons, hstep]
      simpa [bind, Except.bind] using h1
    · rw [List.foldlM_cons, hstep2]
      simpa [bind, Except.bind] using h2

theorem propsToRRule_congr {m m2 : Props} (he : propsEquiv m m2) :
    propsToRRule m = propsToRRule m2 := by
  have heqOther : ∀ pr, pr ≠ .freq → pr ≠ .wkst → m pr = m2 pr := by
    intro pr h1 h2
    rcases he pr with h | ⟨va, vb, ha, hb, hup, ⟨hf, _⟩ | ⟨hw, _⟩⟩
    · exact h
    · exact absurd hf h1
    · exact absurd hw h2
  have hfreq : freqProp m = freqProp m2 := by
    rcases he .freq with h | ⟨va, vb, ha, hb, hup, ⟨_, f, hf⟩ | ⟨hcontra, _⟩⟩
    · unfold freqProp; rw [h]
    · have hvb : Frequency.fromStr vb = .ok f :=
        Frequency.fromStr_okCongr hup.symm hf
      simp [freqProp, ha, hb, hf, hvb]
    · exact absurd hcontra (by decide)
  have hweek : weekStartProp m = weekStartProp m2 := by
    rcases he .wkst with h | ⟨va, vb, ha, hb, hup, ⟨hcontra, _⟩ | ⟨_, w, hw⟩⟩
    · unfold weekStartProp; rw [h]
    · exact absurd hcontra (by decide)
    · have hvb : strToWeekday vb = some w :=
        (strToWeekday_congr hup.symm).symm.trans hw
      simp [weekStartProp, ha, hb, hw, hvb]
  have hint : intervalProp m = intervalProp m2 := by
    unfold intervalProp; rw [heqOther .interval (by decide) (by decide)]
  have hcount : countProp m = countProp m2 := by
    unfold countProp; rw [heqOther .count (by decide) (by decide)]
  have hlocal : localTzidProp m = localTzidProp m2 := by
    unfold localTzidProp; rw [heqOther .localTzid (by decide) (by decide)]
  have huntilF : untilProp m = untilProp m2 := by
    funext z
    unfold untilProp; rw [heqOther .until (by decide) (by decide)]
  have hbsp : bySetPosProp m = bySetPosProp m2 := by
    unfold bySetPosProp; rw [heqOther .bySetPos (by decide) (by decide)]
  have hbm : byMonthProp m = byMonthProp m2 := by
    unfold byMonthProp; rw [heqOther .byMonth (by decide) (by decide)]
  have hbmd : byMonthDayProp m = byMonthDayProp m2 := by
    unfold byMonthDayProp; rw [heqOther .byMonthDay (by decide) (by decide)]
  have hbyd : byYearDayProp m = byYearDayProp m2 := by
    unfold byYearDayProp; rw [heqOther .byYearDay (by decide) (by decide)]
  have hbwn : byWeekNoProp m = byWeekNoProp m2 := by
    unfold byWeekNoProp; rw [heqOther .byWeekNo (by decide) (by decide)]
  have hbwd : byWeekdayProp m = byWeekdayProp m2 := by
    unfold byWeekdayProp; rw [heqOther .byDay (by decide) (by decide)]
  have hbh : byHourProp m = byHourProp m2 := by
    unfold byHourProp; rw [heqOther .byHour (by decide) (by decide)]
  have hbmin : byMinuteProp m = byMinuteProp m2 := by
    unfold byMinuteProp; rw [heqOther .byMinute (by decide) (by decide)]
  have hbs : bySecondProp m = bySecondProp m2 := by
    unfold bySecondProp; rw [heqOther .bySecond (by decide) (by decide)]
  have hbe : byEasterProp m = byEasterProp m2 := by
    unfold byEasterProp; rw [heqOther .byEaster (by decide) (by decide)]
  have hinc : includeDtstartProp m = includeDtstartProp m2 := by
    unfold includeDtstartProp; rw [heqOther .xIncludeDtstart (by decide) (by decide)]
  unfold propsToRRule
  rw [hfreq, hint, hcount, hlocal, huntilF, hweek, hbsp, hbm, hbmd, hbyd,
    hbwn, hbwd, hbh, hbmin, hbs, hbe, hinc]

/-- C8: key recognition and the FREQ/WKST vocabularies are
case-insensitive: two value strings whose pieces pair up with keys equal
up to case (and recognized), and values identical except that a valid
FREQ or WKST vocabulary word may change case, parse to identical results
— identical descriptors or identical errors. -/
theorem claim_c8 (v v2 : Str)
    (h : List.Forall₂ caseEquivPiece (splitOnChar ';' v) (splitOnChar ';' v2)) :
    rruleFromContentLine ⟨none, v⟩ = rruleFromContentLine ⟨none, v2⟩ := by
  obtain ⟨mf, mf2, h1, h2, h3⟩ :=
    foldPieces_caseEquiv h Props.empty Props.empty (fun pr => Or.inl rfl)
  simp only [rruleFromContentLine, parseParameters]
  rw [h1, h2]
  simp only [bind, Except.bind]
  exact propsToRRule_congr h3

/-- Witness for C8: FREQ=DAILY and freq=daily parse identically, and to
the daily descriptor. -/
theorem claim_c8_witness :
    rruleFromContentLine ⟨none, str "FREQ=DAILY"⟩ =
        rruleFromContentLine ⟨none, str "freq=daily"⟩ ∧
      ∃ r, rruleFromContentLine ⟨none, str "freq=daily"⟩ = .ok r ∧
        r.freq = .daily := by
  constructor
  · exact claim_c8 (str "FREQ=DAILY") (str "freq=daily")
      (List.Forall₂.cons
        ⟨by decide, ⟨.freq, rfl⟩,
          Or.inr (Or.inl ⟨rfl, by decide, .daily, rfl⟩)⟩
        List.Forall₂.nil)
  · exact ⟨_, rfl, rfl⟩

/-- Modelled from the spec: the rule fragment of the Frequency Expansion
Engine (its files are not among the provided sources) sufficient for the
start-instant inclusion policy: DAILY rules with an interval and WEEKLY
rules with plain BYDAY weekday filters.  Time is counted in whole days
from an epoch whose day 0 falls on the week start; the time of day is the
start instant's, as the spec's defaulting prescribes when no time-of-day
BY* rule is present. -/
inductive EFreq
  | daily (interval : Nat)
  | weeklyByday (byday : List Nat)

/-- Modelled from the spec: whether a day is produced by normal expansion
of the rule anchored at `start` — DAILY advances by INTERVAL days from the
period containing the start instant; WEEKLY with BYDAY selects the listed
weekdays of every week, an absent BYDAY defaulting to the start instant's
weekday. -/
def matchesDay (f : EFreq) (start day : Nat) : Bool :=
  match f with
  | .daily k => (day - start) % k == 0
  | .weeklyByday s =>
    if s.isEmpty then day % 7 == start % 7 else s.contains (day % 7)

/-- Modelled from the spec: the ordered candidate stream of normal
expansion, truncated at a finite horizon of `hor` days — candidates
earlier than the start instant are dropped and periods are visited
chronologically, so the stream is the ascending days from `start` matching
the rule. -/
def naturalCandidates (f : EFreq) (start hor : Nat) : List Nat :=
  ((List.range hor).map (fun i => start + i)).filter
    (fun day => matchesDay f start day)

/-- Modelled from the spec: the start-instant inclusion policy combined
with COUNT bounding.  Forced-true emits the start instant first without
consuming COUNT, then the counted candidates strictly after the start;
forced-false and unset emit the counted natural candidates unchanged. -/
def occurrences (f : EFreq) (includeDtstart : Option Bool)
    (count start hor : Nat) : List Nat :=
  match includeDtstart with
  | some true =>
    start ::
      ((naturalCandidates f start hor).filter (fun d => start < d)).take count
  | _ => (naturalCandidates f start hor).take count

/-- C2: with include_dtstart forced true, the start instant is the first
element of the output whether or not normal expansion reproduces it, and
the forced element consumes no COUNT: with COUNT `count` and enough
candidates in the horizon, exactly `count + 1` occurrences result, the
start first and every later one a natural candidate after the start. -/
theorem claim_c2 (f : EFreq) (count start hor : Nat)
    (hH : count ≤
      ((naturalCandidates f start hor).filter (fun d => start < d)).length) :
    (occurrences f (some true) count start hor).length = count + 1 ∧
    (occurrences f (some true) count start hor).head? = some start ∧
    ∀ d ∈ (occurrences f (some true) count start hor).tail,
      start < d ∧ matchesDay f start d = true := by
  unfold occurrences
  refine ⟨?_, rfl, ?_⟩
  · simp only [List.length_cons, List.length_take]
    omega
  · intro d hd
    simp only [List.tail_cons] at hd
    have hmem := List.mem_of_mem_take hd
    have h1 := List.mem_filter.mp hmem
    have h2 := List.mem_filter.mp h1.1
    refine ⟨by simpa using h1.2, h2.2⟩

/-- Witness for C2: the spec's DAILY example (INTERVAL=2, COUNT=3,
forced-true) yields the four days 0, 2, 4, 6, the start first and
uncounted; and a WEEKLY BYDAY=Tuesday rule anchored on a Monday — a start
the expansion never reproduces — still yields COUNT+1 occurrences led by
the start. -/
theorem claim_c2_witness :
    ((occurrences (.daily 2) (some true) 3 0 10).length = 3 + 1 ∧
      (occurrences (.daily 2) (some true) 3 0 10).head? = some 0) ∧
    occurrences (.daily 2) (some true) 3 0 10 = [0, 2, 4, 6] ∧
    ((occurrences (.weeklyByday [1]) (some true) 3 0 30).length = 3 + 1 ∧
      (occurrences (.weeklyByday [1]) (some true) 3 0 30).head? = some 0) ∧
    occurrences (.weeklyByday [1]) (some true) 3 0 30 = [0, 1, 8, 15] ∧
    matchesDay (.weeklyByday [1]) 0 0 = false := by
  have h1 := claim_c2 (.daily 2) 3 0 10 (by decide)
  have h2 := claim_c2 (.weeklyByday [1]) 3 0 30 (by decide)
  exact ⟨⟨h1.1, h1.2.1⟩, by decide, ⟨h2.1, h2.2.1⟩, by decide, by decide⟩

/-! Rendering a descriptor back to its `KEY=VALUE;...` text form.
Modelled from the spec: the `Display` implementation is not among the
provided sources; §6 requires the same key names and the TRUE/FALSE
vocabulary accepted on input, so that parse(render(x)) reproduces x's
observable fields. -/

/-- The FREQ vocabulary word of a frequency. -/
def renderFrequency : Frequency → Str
  | .yearly => str "YEARLY"
  | .monthly => str "MONTHLY"
  | .weekly => str "WEEKLY"
  | .daily => str "DAILY"
  | .hourly => str "HOURLY"
  | .minutely => str "MINUTELY"
  | .secondly => str "SECONDLY"

/-- The two-letter weekday token. -/
def renderWday : Wday → Str
  | .mon => str "MO"
  | .tue => str "TU"
  | .wed => str "WE"
  | .thu => str "TH"
  | .fri => str "FR"
  | .sat => str "SA"
  | .sun => str "SU"

/-- Two-digit zero-padded decimal rendering. -/
def d2 (n : Nat) : Str := [digitChar (n / 10 % 10), digitChar (n % 10)]

/-- Four-digit zero-padded decimal rendering. -/
def d4 (n : Nat) : Str :=
  [digitChar (n / 1000 % 10), digitChar (n / 100 % 10),
   digitChar (n / 10 % 10), digitChar (n % 10)]

/-- Render an UNTIL value: `YYYYMMDDTHHMMSS`, with a trailing `Z` exactly
when the stored instant carries the explicit UTC marker. -/
def renderUntil (dt : MDateTime) : Str :=
  d4 dt.date.y ++ d2 dt.date.m ++ d2 dt.date.d ++
    'T' :: (d2 dt.date.hh ++ d2 dt.date.mi ++ d2 dt.date.ss) ++
    (match dt.zone with
     | .utcMarked => ['Z']
     | _ => [])

/-- Render a BYDAY element: optional signed ordinal then weekday token. -/
def renderNWeekday : NWeekday → Str
  | .every w => renderWday w
  | .nth n w => intToChars n ++ renderWday w

/-- Canonical key name of each property. -/
def keyName : RRuleProperty → Str
  | .freq => str "FREQ"
  | .until => str "UNTIL"
  | .count => str "COUNT"
  | .interval => str "INTERVAL"
  | .bySecond => str "BYSECOND"
  | .byMinute => str "BYMINUTE"
  | .byHour => str "BYHOUR"
  | .byDay => str "BYDAY"
  | .byMonthDay => str "BYMONTHDAY"
  | .byYearDay => str "BYYEARDAY"
  | .byWeekNo => str "BYWEEKNO"
  | .byMonth => str "BYMONTH"
  | .bySetPos => str "BYSETPOS"
  | .wkst => str "WKST"
  | .byEaster => str "BYEASTER"
  | .xIncludeDtstart => str "X-INCLUDE-DTSTART"
  | .localTzid => str "LOCAL-TZID"

/-- Render a comma-joined list value, omitted when the list is empty. -/
def renderList {α : Type} (f : α → Str) (l : List α) : Option Str :=
  match l with
  | [] => none
  | _ => some (joinSep ',' (l.map f))

/-- The rendered value of each property of a descriptor: required fields
always, optional fields when set, list fields when non-empty. -/
def renderProps (r : RRuleUnvalidated) : RRuleProperty → Option Str
  | .freq => some (renderFrequency r.freq)
  | .interval => some (natToChars r.interval)
  | .count => r.count.map natToChars
  | .until => r.untilDt.map renderUntil
  | .wkst => some (renderWday r.weekStart)
  | .bySetPos => renderList intToChars r.bySetPos
  | .byMonth => renderList natToChars r.byMonth
  | .byMonthDay => renderList intToChars r.byMonthDay
  | .byYearDay => renderList intToChars r.byYearDay
  | .byWeekNo => renderList intToChars r.byWeekNo
  | .byDay => renderList renderNWeekday r.byWeekday
  | .byHour => renderList natToChars r.byHour
  | .byMinute => renderList natToChars r.byMinute
  | .bySecond => renderList natToChars r.bySecond
  | .byEaster => r.byEaster.map intToChars
  | .xIncludeDtstart =>
    r.includeDtstart.map (fun b => if b then str "TRUE" else str "FALSE")
  | .localTzid => r.localTzid.map tzName

/-- The fixed key order of the rendered text. -/
def renderOrder : List RRuleProperty :=
  [.freq, .interval, .count, .until, .wkst, .bySetPos, .byMonth,
   .byMonthDay, .byYearDay, .byWeekNo, .byDay, .byHour, .byMinute,
   .bySecond, .byEaster, .xIncludeDtstart, .localTzid]

/-- Render a descriptor to its `KEY=VALUE;...` text form. -/
def render (r : RRuleUnvalidated) : Str :=
  joinSep ';'
    (renderOrder.filterMap
      (fun pr => (renderProps r pr).map (fun v => keyName pr ++ '=' :: v)))

/-- Consistency of a stored until instant with the descriptor's LOCAL-TZID
field: rendered text can carry only the UTC marker, so an ambient instant
needs no LOCAL-TZID and a zoned instant needs the matching LOCAL-TZID. -/
def zoneConsistent : ZoneInfo → Option Tz → Bool
  | .utcMarked, _ => true
  | .ambient, none => true
  | .zoned z, some z2 => z = z2
  | _, _ => false

/-- Whether a zone association is the explicit UTC marker. -/
def isUtcMarked : ZoneInfo → Bool
  | .utcMarked => true
  | _ => false

theorem digits2_round (n : Nat) (h : n < 100) :
    digits2 (digitChar (n / 10 % 10)) (digitChar (n % 10)) = some n := by
  have h1 := parseDigit_digitChar (n / 10 % 10) (Nat.mod_lt _ (by omega))
  have h2 := parseDigit_digitChar (n % 10) (Nat.mod_lt _ (by omega))
  simp [digits2, h1, h2]
  omega

theorem digits4_round (n : Nat) (h : n < 10000) :
    digits4 (digitChar (n / 1000 % 10)) (digitChar (n / 100 % 10))
      (digitChar (n / 10 % 10)) (digitChar (n % 10)) = some n := by
  have h1 := parseDigit_digitChar (n / 1000 % 10) (Nat.mod_lt _ (by omega))
  have h2 := parseDigit_digitChar (n / 100 % 10) (Nat.mod_lt _ (by omega))
  have h3 := parseDigit_digitChar (n / 10 % 10) (Nat.mod_lt _ (by omega))
  have h4 := parseDigit_digitChar (n % 10) (Nat.mod_lt _ (by omega))
  simp [digits4, h1, h2, h3, h4]
  omega

theorem parseDatestringRaw_renderUntil (dt : MDateTime)
    (hval : validDate dt.date = true) (hy : dt.date.y < 10000) :
    parseDatestringRaw (renderUntil dt) =
      some (dt.date, isUtcMarked dt.zone) := by
  obtain ⟨⟨y, m, d, hh, mi, ss⟩, zone⟩ := dt
  simp only [validDate, Bool.and_eq_true, decide_eq_true_eq] at hval
  obtain ⟨⟨⟨⟨⟨⟨hm1, hm2⟩, hd1⟩, hd2⟩, hhh⟩, hmi⟩, hss⟩ := hval
  have h4 := digits4_round y (by simpa using hy)
  have hm := digits2_round m (by omega)
  have hd := digits2_round d (by omega)
  have hhh2 := digits2_round hh (by omega)
  have hmi2 := digits2_round mi (by omega)
  have hss2 := digits2_round ss (by omega)
  cases zone with
  | utcMarked =>
    simp only [renderUntil, d4, d2, List.cons_append, List.nil_append,
      parseDatestringRaw, h4, hm, hd, hhh2, hmi2, hss2, isUtcMarked]
  | ambient =>
    simp only [renderUntil, d4, d2, List.cons_append, List.nil_append,
      List.append_nil, parseDatestringRaw, h4, hm, hd, hhh2, hmi2, hss2,
      isUtcMarked]
  | zoned z =>
    simp only [renderUntil, d4, d2, List.cons_append, List.nil_append,
      List.append_nil, parseDatestringRaw, h4, hm, hd, hhh2, hmi2, hss2,
      isUtcMarked]

theorem datestring_renderUntil (dt : MDateTime) (property : Str)
    (tz : Option Tz) (hval : validDate dt.date = true)
    (hy : dt.date.y < 10000) (hz : zoneConsistent dt.zone tz = true) :
    datestringToDateWithLocalTzid (renderUntil dt) property tz = .ok dt := by
  unfold datestringToDateWithLocalTzid
  rw [parseDatestringRaw_renderUntil dt hval hy]
  simp only [hval, if_true]
  have hres : resolveZone (isUtcMarked dt.zone) tz = dt.zone := by
    cases hzone : dt.zone with
    | utcMarked => simp [isUtcMarked, resolveZone]
    | ambient =>
      rw [hzone] at hz
      cases tz with
      | none => simp [isUtcMarked, resolveZone]
      | some z2 => simp [zoneConsistent] at hz
    | zoned z =>
      rw [hzone] at hz
      cases tz with
      | none => simp [zoneConsistent] at hz
      | some z2 =>
        simp only [zoneConsistent, decide_eq_true_eq] at hz
        simp [isUtcMarked, resolveZone, hz]
  rw [hres]

theorem splitKeyValue_append (k v : Str) (hk : '=' ∉ k) :
    splitKeyValue (k ++ '=' :: v) = (k, v) := by
  induction k with
  | nil => simp [splitKeyValue]
  | cons c cs ih =>
    have hc : c ≠ '=' := fun h => hk (h ▸ List.mem_cons_self c cs)
    have hcs : '=' ∉ cs := fun h => hk (List.mem_cons_of_mem c h)
    simp only [List.cons_append, splitKeyValue, if_neg hc]
    simp [List.append_eq, ih hcs]

theorem fromStr_keyName (pr : RRuleProperty) :
    RRuleProperty.fromStr (keyName pr) = .ok pr := by
  cases pr <;> rfl

theorem keyName_no_eq (pr : RRuleProperty) : '=' ∉ keyName pr := by
  cases pr <;> decide

theorem keyName_no_semi (pr : RRuleProperty) : ';' ∉ keyName pr := by
  cases pr <;> decide

theorem mem_joinSep (sep : Char) :
    ∀ (l : List Str) (c : Char), c ∈ joinSep sep l →
      c = sep ∨ ∃ p ∈ l, c ∈ p := by
  intro l
  induction l with
  | nil => simp [joinSep]
  | cons p ps ih =>
    cases ps with
    | nil =>
      intro c hc
      right
      exact ⟨p, by simp, by simpa [joinSep] using hc⟩
    | cons q qs =>
      intro c hc
      simp only [joinSep] at hc
      rcases List.mem_append.mp hc with h | h
      · right; exact ⟨p, by simp, h⟩
      · rcases List.mem_cons.mp h with rfl | h2
        · left; rfl
        · rcases ih c h2 with h3 | ⟨p2, hp2, hcp⟩
          · left; exact h3
          · right; exact ⟨p2, List.mem_cons_of_mem _ hp2, hcp⟩

theorem renderUntil_chars (dt : MDateTime) :
    ∀ c ∈ renderUntil dt, ('0' ≤ c ∧ c ≤ '9') ∨ c = 'T' ∨ c = 'Z' := by
  intro c hc
  have hdig : ∀ x : Nat, c = digitChar (x % 10) → '0' ≤ c ∧ c ≤ '9' :=
    fun x hx => hx ▸ digitChar_digit_range (x % 10) (Nat.mod_lt _ (by omega))
  cases hz : dt.zone with
  | utcMarked =>
    simp only [renderUntil, hz, d4, d2, List.cons_append, List.nil_append,
      List.append_nil, List.mem_cons, List.not_mem_nil, or_false] at hc
    rcases hc with h|h|h|h|h|h|h|h|h|h|h|h|h|h|h|h <;>
      first
        | exact Or.inl (hdig _ h)
        | exact Or.inr (Or.inl h)
        | exact Or.inr (Or.inr h)
  | ambient =>
    simp only [renderUntil, hz, d4, d2, List.cons_append, List.nil_append,
      List.append_nil, List.mem_cons, List.not_mem_nil, or_false] at hc
    rcases hc with h|h|h|h|h|h|h|h|h|h|h|h|h|h|h <;>
      first
        | exact Or.inl (hdig _ h)
        | exact Or.inr (Or.inl h)
  | zoned z =>
    simp only [renderUntil, hz, d4, d2, List.cons_append, List.nil_append,
      List.append_nil, List.mem_cons, List.not_mem_nil, or_false] at hc
    rcases hc with h|h|h|h|h|h|h|h|h|h|h|h|h|h|h <;>
      first
        | exact Or.inl (hdig _ h)
        | exact Or.inr (Or.inl h)

theorem renderWday_no_semi (w : Wday) : ';' ∉ renderWday w := by
  cases w <;> decide

theorem renderWday_no_comma (w : Wday) : ',' ∉ renderWday w := by
  cases w <;> decide

theorem natToChars_no_semi (n : Nat) : ';' ∉ natToChars n := by
  intro h
  exact digit_ne_semi (natToChars_digits n ';' h) rfl

theorem natToChars_no_comma (n : Nat) : ',' ∉ natToChars n := by
  intro h
  exact digit_ne_comma (natToChars_digits n ',' h) rfl

theorem intToChars_no_semi (i : Int) : ';' ∉ intToChars i := by
  intro h
  rcases intToChars_chars i ';' h with hd | hm
  · exact digit_ne_semi hd rfl
  · exact absurd hm (by decide)

theorem intToChars_no_comma (i : Int) : ',' ∉ intToChars i := by
  intro h
  rcases intToChars_chars i ',' h with hd | hm
  · exact digit_ne_comma hd rfl
  · exact absurd hm (by decide)

theorem renderNWeekday_no_semi (x : NWeekday) : ';' ∉ renderNWeekday x := by
  cases x with
  | every w => exact renderWday_no_semi w
  | nth n w =>
    intro h
    rcases List.mem_append.mp h with h2 | h2
    · exact intToChars_no_semi n h2
    · exact renderWday_no_semi w h2

theorem renderNWeekday_no_comma (x : NWeekday) : ',' ∉ renderNWeekday x := by
  cases x with
  | every w => exact renderWday_no_comma w
  | nth n w =>
    intro h
    rcases List.mem_append.mp h with h2 | h2
    · exact intToChars_no_comma n h2
    · exact renderWday_no_comma w h2

theorem renderList_no_semi {α : Type} (f : α → Str) (l : List α) {v : Str}
    (hf : ∀ x ∈ l, ';' ∉ f x) (h : renderList f l = some v) : ';' ∉ v := by
  unfold renderList at h
  cases l with
  | nil => simp at h
  | cons a l2 =>
    simp only [Option.some.injEq] at h
    intro hm
    rw [← h] at hm
    rcases mem_joinSep ',' _ ';' hm with h2 | ⟨p, hp, hcp⟩
    · exact absurd h2 (by decide)
    · obtain ⟨x, hx, rfl⟩ := List.mem_map.mp hp
      exact hf x hx hcp

theorem renderProps_no_semi (r : RRuleUnvalidated) (pr : RRuleProperty)
    {v : Str} (h : renderProps r pr = some v) : ';' ∉ v := by
  cases pr <;> simp only [renderProps] at h
  · rw [← Option.some.inj h]; cases r.freq <;> decide
  · obtain ⟨dt, _, rfl⟩ := Option.map_eq_some'.mp h
    intro hm
    rcases renderUntil_chars dt ';' hm with hd | h2 | h2
    · exact digit_ne_semi hd rfl
    · exact absurd h2 (by decide)
    · exact absurd h2 (by decide)
  · obtain ⟨c2, _, rfl⟩ := Option.map_eq_some'.mp h
    exact natToChars_no_semi c2
  · rw [← Option.some.inj h]; exact natToChars_no_semi r.interval
  · exact renderList_no_semi _ _ (fun x _ => natToChars_no_semi x) h
  · exact renderList_no_semi _ _ (fun x _ => natToChars_no_semi x) h
  · exact renderList_no_semi _ _ (fun x _ => natToChars_no_semi x) h
  · exact renderList_no_semi _ _ (fun x _ => renderNWeekday_no_semi x) h
  · exact renderList_no_semi _ _ (fun x _ => intToChars_no_semi x) h
  · exact renderList_no_semi _ _ (fun x _ => intToChars_no_semi x) h
  · exact renderList_no_semi _ _ (fun x _ => intToChars_no_semi x) h
  · exact renderList_no_semi _ _ (fun x _ => natToChars_no_semi x) h
  · exact renderList_no_semi _ _ (fun x _ => intToChars_no_semi x) h
  · rw [← Option.some.inj h]; exact renderWday_no_semi r.weekStart
  · obtain ⟨i, _, rfl⟩ := Option.map_eq_some'.mp h
    exact intToChars_no_semi i
  · obtain ⟨b, _, rfl⟩ := Option.map_eq_some'.mp h
    cases b <;> decide
  · obtain ⟨z, _, rfl⟩ := Option.map_eq_some'.mp h
    cases z <;> decide

theorem paramStep_render_piece (m : Props) (k : RRuleProperty) (v : Str) :
    paramStep m (keyName k ++ '=' :: v) = .ok (m.insert k v) := by
  unfold paramStep
  rw [splitKeyValue_append _ _ (keyName_no_eq k)]
  simp [fromStr_keyName]

theorem foldPieces_render (r : RRuleUnvalidated) :
    ∀ keys : List RRuleProperty, keys.Nodup → ∀ m : Props,
      (keys.filterMap
        (fun pr => (renderProps r pr).map (fun v => keyName pr ++ '=' :: v))).foldlM
          paramStep m =
        .ok (fun pr => if pr ∈ keys then
          (match renderProps r pr with
           | some v => some v
           | none => m pr)
          else m pr) := by
  intro keys
  induction keys with
  | nil =>
    intro _ m
    simp only [List.filterMap_nil, List.foldlM_nil, pure, Except.pure]
    have hfun : (fun pr => if pr ∈ ([] : List RRuleProperty) then
        (match renderProps r pr with
         | some v => some v
         | none => m pr)
        else m pr) = m := by
      funext pr
      simp
    rw [hfun]
  | cons k ks ih =>
    intro hnd m
    have hk : k ∉ ks := (List.nodup_cons.mp hnd).1
    have hnd2 := (List.nodup_cons.mp hnd).2
    rw [List.filterMap_cons]
    cases hrp : renderProps r k with
    | none =>
      simp only [hrp, Option.map_none']
      rw [ih hnd2 m]
      congr 1
      funext pr
      by_cases hpr : pr = k
      · subst hpr
        simp [hk, hrp]
      · simp [hpr]
    | some v =>
      simp only [hrp, Option.map_some']
      rw [List.foldlM_cons, paramStep_render_piece]
      simp only [bind, Except.bind]
      rw [ih hnd2 (m.insert k v)]
      congr 1
      funext pr
      by_cases hpr : pr = k
      · subst hpr
        simp only [hk, if_neg hk, List.mem_cons, true_or, if_true, hrp]
        unfold Props.insert
        simp [hk]
      · have hins : Props.insert m k v pr = m pr := by
          unfold Props.insert
          simp [hpr]
        by_cases hmem : pr ∈ ks
        · simp [hmem, hpr, hins]
        · simp [hmem, hpr, hins]

theorem parseParameters_render (r : RRuleUnvalidated) :
    parseParameters (render r) = .ok (renderProps r) := by
  unfold parseParameters render
  rw [splitOnChar_joinSep]
  · rw [foldPieces_render r renderOrder (by decide) Props.empty]
    congr 1
    funext pr
    have hmem : pr ∈ renderOrder := by cases pr <;> decide
    simp only [hmem, if_true]
    cases hrp : renderProps r pr with
    | none => simp [Props.empty]
    | some v => simp
  · simp [renderOrder, List.filterMap_cons, renderProps]
  · intro p hp
    obtain ⟨pr, _, hmap⟩ := List.mem_filterMap.mp hp
    obtain ⟨v, hv, rfl⟩ := Option.map_eq_some'.mp hmap
    intro hm
    rcases List.mem_append.mp hm with h2 | h2
    · exact keyName_no_semi pr h2
    · rcases List.mem_cons.mp h2 with heq | h3
      · exact absurd heq (by decide)
      · exact renderProps_no_semi r pr hv h3

theorem Frequency.fromStr_render (f : Frequency) :
    Frequency.fromStr (renderFrequency f) = .ok f := by
  cases f <;> rfl

theorem strToWeekday_render (w : Wday) :
    strToWeekday (renderWday w) = some w := by
  cases w <;> rfl

theorem parseTimezone_tzName (z : Tz) : parseTimezone (tzName z) = .ok z := by
  cases z <;> rfl

theorem parsePosNat_natToChars (n : Nat) (h : 1 ≤ n) :
    parsePosNat (natToChars n) = some n := by
  unfold parsePosNat
  rw [parseUInt_natToChars]
  simp
  omega

theorem numPrefix_renderWday (w : Wday) :
    numPrefix (renderWday w) = ([], renderWday w) := by
  cases w <;> rfl

theorem numPrefix_digits_append (a b : Str)
    (ha : ∀ c ∈ a, '0' ≤ c ∧ c ≤ '9') (hb : numPrefix b = ([], b)) :
    numPrefix (a ++ b) = (a, b) := by
  induction a with
  | nil => simpa using hb
  | cons c cs ih =>
    have hc := ha c (List.mem_cons_self c cs)
    simp only [List.cons_append, numPrefix, if_pos hc]
    simp [List.append_eq, ih (fun x hx => ha x (List.mem_cons_of_mem c hx))]

theorem parseOneWeekday_render (x : NWeekday) :
    parseOneWeekday (renderNWeekday x) = some x := by
  cases x with
  | every w => cases w <;> rfl
  | nth n w =>
    have hw1 := numPrefix_renderWday w
    have hw2 := strToWeekday_render w
    by_cases hn : n < 0
    · have hic : renderNWeekday (.nth n w) =
          '-' :: (natToChars n.natAbs ++ renderWday w) := by
        simp [renderNWeekday, intToChars, hn]
      rw [hic]
      have hnum : numPrefix (natToChars n.natAbs ++ renderWday w) =
          (natToChars n.natAbs, renderWday w) :=
        numPrefix_digits_append _ _ (natToChars_digits _) hw1
      simp [parseOneWeekday, hnum, natToChars_ne_nil, parseUInt_natToChars, hw2]
      rw [abs_of_neg hn]
      omega
    · have hic : renderNWeekday (.nth n w) =
          natToChars n.toNat ++ renderWday w := by
        simp [renderNWeekday, intToChars, hn]
      rw [hic]
      cases hcons : natToChars n.toNat with
      | nil => exact absurd hcons (natToChars_ne_nil n.toNat)
      | cons c cs =>
        have hdig : ∀ x2 ∈ c :: cs, '0' ≤ x2 ∧ x2 ≤ '9' := by
          rw [← hcons]; exact natToChars_digits n.toNat
        have hc := hdig c (List.mem_cons_self c cs)
        have hnum : numPrefix ((c :: cs) ++ renderWday w) =
            (c :: cs, renderWday w) :=
          numPrefix_digits_append _ _ hdig hw1
        simp only [List.cons_append] at hnum
        simp only [List.cons_append, parseOneWeekday,
          if_neg (digit_ne_minus hc), if_neg (digit_ne_plus hc), hnum]
        rw [← hcons, parseUInt_natToChars]
        simp [hw2]
        rw [if_neg (natToChars_ne_nil n.toNat)]
        have hmax : n ⊔ 0 = n := by omega
        rw [hmax]

theorem traverseOpt_map_id {α : Type} (elem : Str → Option α) (f : α → Str) :
    ∀ l : List α, (∀ x ∈ l, elem (f x) = some x) →
      traverseOpt elem (l.map f) = some l := by
  intro l
  induction l with
  | nil => intro _; simp [traverseOpt]
  | cons a l2 ih =>
    intro h
    simp only [List.map_cons, traverseOpt, h a (List.mem_cons_self a l2),
      ih (fun x hx => h x (List.mem_cons_of_mem a hx))]
    rfl

theorem parseStrToVec_render {α : Type} (pel : Str → Option α)
    (check : α → Bool) (f : α → Str) (l : List α) (hne : l ≠ [])
    (hfree : ∀ x ∈ l, ',' ∉ f x)
    (hel : ∀ x ∈ l, pel (f x) = some x)
    (hcheck : ∀ x ∈ l, check x = true) :
    parseStrToVec pel check (joinSep ',' (l.map f)) = some l := by
  unfold parseStrToVec
  rw [splitOnChar_joinSep ',' (l.map f) (by simp [hne])
    (by
      intro p hp
      obtain ⟨x, hx, rfl⟩ := List.mem_map.mp hp
      exact hfree x hx)]
  exact traverseOpt_map_id _ f l
    (fun x hx => by simp [hel x hx, hcheck x hx])

theorem parseWeekdays_render (l : List NWeekday) (hne : l ≠ []) :
    parseWeekdays (joinSep ',' (l.map renderNWeekday)) = .ok l := by
  unfold parseWeekdays
  rw [splitOnChar_joinSep ',' (l.map renderNWeekday) (by simp [hne])
    (by
      intro p hp
      obtain ⟨x, hx, rfl⟩ := List.mem_map.mp hp
      exact renderNWeekday_no_comma x)]
  rw [traverseOpt_map_id _ renderNWeekday l
    (fun x _ => parseOneWeekday_render x)]

/-- C3: rendering a descriptor to its `KEY=VALUE;...` text (LOCAL-TZID and
X-INCLUDE-DTSTART with their literal key names and TRUE/FALSE vocabulary)
and parsing the text back reproduces every observable field of the
descriptor.  The hypotheses are the descriptor invariants: the field
ranges of the data model, a renderable four-digit year, and the stored
until instant consistent with the LOCAL-TZID field (the text form cannot
carry any other explicit zone). -/
theorem claim_c3 (r : RRuleUnvalidated)
    (hint : 1 ≤ r.interval)
    (hmonth : ∀ m ∈ r.byMonth, 1 ≤ m ∧ m ≤ 12)
    (hmd : ∀ d ∈ r.byMonthDay, -31 ≤ d ∧ d ≤ 31)
    (hyd : ∀ d ∈ r.byYearDay, -366 ≤ d ∧ d ≤ 366)
    (hwn : ∀ d ∈ r.byWeekNo, -53 ≤ d ∧ d ≤ 53)
    (hhr : ∀ h ∈ r.byHour, h < 24)
    (hmin : ∀ m2 ∈ r.byMinute, m2 < 60)
    (hsec : ∀ s2 ∈ r.bySecond, s2 < 60)
    (huntil : ∀ dt, r.untilDt = some dt →
      validDate dt.date = true ∧ dt.date.y < 10000 ∧
        zoneConsistent dt.zone r.localTzid = true) :
    rruleFromContentLine ⟨none, render r⟩ = .ok { r with byNMonthDay := [] } := by
  have hpp := parseParameters_render r
  have hline : rruleFromContentLine ⟨none, render r⟩ =
      propsToRRule (renderProps r) := by
    simp [rruleFromContentLine, hpp, bind, Except.bind]
  rw [hline]
  have hloc : localTzidProp (renderProps r) = .ok r.localTzid := by
    cases hz : r.localTzid with
    | none => simp [localTzidProp, renderProps, hz]
    | some z =>
      simp [localTzidProp, renderProps, hz, parseTimezone_tzName, Except.map]
  refine (propsToRRule_ok_iff _ _).mpr
    ⟨?_, ?_, ?_, ?_, ?_, ?_, ?_, ?_, ?_, ?_, ?_, ?_, ?_, ?_, ?_, ?_, ?_, ?_⟩
  · simp [freqProp, renderProps, Frequency.fromStr_render]
  · simp [intervalProp, renderProps, parsePosNat_natToChars r.interval hint]
  · cases hc : r.count with
    | none => simp [countProp, renderProps, hc]
    | some c => simp [countProp, renderProps, hc, parseUInt_natToChars]
  · exact hloc
  · unfold untilChain
    rw [hloc]
    simp only [bind, Except.bind]
    cases hu : r.untilDt with
    | none => simp [untilProp, renderProps, hu]
    | some dt =>
      obtain ⟨h1, h2, h3⟩ := huntil dt hu
      simp [untilProp, renderProps, hu,
        datestring_renderUntil dt (str "UNTIL") r.localTzid h1 h2 h3,
        Except.map]
  · simp [weekStartProp, renderProps, strToWeekday_render]
  · cases hl : r.bySetPos with
    | nil => simp [bySetPosProp, renderProps, renderList, hl]
    | cons a as =>
      have hps := parseStrToVec_render parseInt (fun _ => true) intToChars
        (a :: as) (by simp) (fun x _ => intToChars_no_comma x)
        (fun x _ => parseInt_intToChars x) (fun x _ => rfl)
      simp only [List.map_cons] at hps
      simp [bySetPosProp, renderProps, renderList, hl, hps]
  · cases hl : r.byMonth with
    | nil => simp [byMonthProp, renderProps, renderList, hl]
    | cons a as =>
      have hps := parseStrToVec_render parseUInt
        (fun month => 1 ≤ month && month ≤ 12) natToChars
        (a :: as) (by simp) (fun x _ => natToChars_no_comma x)
        (fun x _ => parseUInt_natToChars x)
        (fun x hx => by
          have h2 := hmonth x (hl ▸ hx)
          simp only [Bool.and_eq_true, decide_eq_true_eq]
          omega)
      simp only [List.map_cons] at hps
      simp [byMonthProp, renderProps, renderList, hl, hps]
  · cases hl : r.byMonthDay with
    | nil => simp [byMonthDayProp, renderProps, renderList, hl]
    | cons a as =>
      have hps := parseStrToVec_render parseInt
        (fun monthday => -31 ≤ monthday && monthday ≤ 31) intToChars
        (a :: as) (by simp) (fun x _ => intToChars_no_comma x)
        (fun x _ => parseInt_intToChars x)
        (fun x hx => by
          have h2 := hmd x (hl ▸ hx)
          simp only [Bool.and_eq_true, decide_eq_true_eq]
          omega)
      simp only [List.map_cons] at hps
      simp [byMonthDayProp, renderProps, renderList, hl, hps]
  · rfl
  · cases hl : r.byYearDay with
    | nil => simp [byYearDayProp, renderProps, renderList, hl]
    | cons a as =>
      have hps := parseStrToVec_render parseInt
        (fun yearday => -366 ≤ yearday && yearday ≤ 366) intToChars
        (a :: as) (by simp) (fun x _ => intToChars_no_comma x)
        (fun x _ => parseInt_intToChars x)
        (fun x hx => by
          have h2 := hyd x (hl ▸ hx)
          simp only [Bool.and_eq_true, decide_eq_true_eq]
          omega)
      simp only [List.map_cons] at hps
      simp [byYearDayProp, renderProps, renderList, hl, hps]
  · cases hl : r.byWeekNo with
    | nil => simp [byWeekNoProp, renderProps, renderList, hl]
    | cons a as =>
      have hps := parseStrToVec_render parseInt
        (fun weekno => -53 ≤ weekno && weekno ≤ 53) intToChars
        (a :: as) (by simp) (fun x _ => intToChars_no_comma x)
        (fun x _ => parseInt_intToChars x)
        (fun x hx => by
          have h2 := hwn x (hl ▸ hx)
          simp only [Bool.and_eq_true, decide_eq_true_eq]
          omega)
      simp only [List.map_cons] at hps
      simp [byWeekNoProp, renderProps, renderList, hl, hps]
  · cases hl : r.byWeekday with
    | nil => simp [byWeekdayProp, renderProps, renderList, hl]
    | cons a as =>
      have hps := parseWeekdays_render (a :: as) (by simp)
      simp only [List.map_cons] at hps
      simp [byWeekdayProp, renderProps, renderList, hl, hps]
  · cases hl : r.byHour with
    | nil => simp [byHourProp, renderProps, renderList, hl]
    | cons a as =>
      have hps := parseStrToVec_render parseUInt (fun hour => hour < 24)
        natToChars (a :: as) (by simp) (fun x _ => natToChars_no_comma x)
        (fun x _ => parseUInt_natToChars x)
        (fun x hx => by
          have h2 := hhr x (hl ▸ hx)
          simp only [decide_eq_true_eq]
          omega)
      simp only [List.map_cons] at hps
      simp [byHourProp, renderProps, renderList, hl, hps]
  · cases hl : r.byMinute with
    | nil => simp [byMinuteProp, renderProps, renderList, hl]
    | cons a as =>
      have hps := parseStrToVec_render parseUInt (fun minute => minute < 60)
        natToChars (a :: as) (by simp) (fun x _ => natToChars_no_comma x)
        (fun x _ => parseUInt_natToChars x)
        (fun x hx => by
          have h2 := hmin x (hl ▸ hx)
          simp only [decide_eq_true_eq]
          omega)
      simp only [List.map_cons] at hps
      simp [byMinuteProp, renderProps, renderList, hl, hps]
  · cases hl : r.bySecond with
    | nil => simp [bySecondProp, renderProps, renderList, hl]
    | cons a as =>
      have hps := parseStrToVec_render parseUInt (fun second => second < 60)
        natToChars (a :: as) (by simp) (fun x _ => natToChars_no_comma x)
        (fun x _ => parseUInt_natToChars x)
        (fun x hx => by
          have h2 := hsec x (hl ▸ hx)
          simp only [decide_eq_true_eq]
          omega)
      simp only [List.map_cons] at hps
      simp [bySecondProp, renderProps, renderList, hl, hps]
  · cases he : r.byEaster with
    | none => simp [byEasterProp, renderProps, he]
    | some i => simp [byEasterProp, renderProps, he, parseInt_intToChars]
  · cases hb : r.includeDtstart with
    | none => simp [includeDtstartProp, renderProps, hb]
    | some b => cases b <;> simp [includeDtstartProp, renderProps, hb, upper, str, asciiUpper]

/-- A concrete descriptor exercising every observable field, including
LOCAL-TZID, X-INCLUDE-DTSTART, a floating UNTIL zoned through LOCAL-TZID,
and signed list elements. -/
def sampleDescriptor : RRuleUnvalidated :=
  { freq := .daily, interval := 2, count := some 3,
    untilDt := some ⟨⟨2023, 1, 7, 10, 0, 0⟩, .zoned .europeLondon⟩,
    weekStart := .mon, bySetPos := [1, -2], byMonth := [1, 12],
    byMonthDay := [-31, 5], byNMonthDay := [], byYearDay := [100],
    byWeekNo := [-5], byWeekday := [.every .tue, .nth 2 .fri, .nth (-1) .mon],
    byHour := [9, 15], byMinute := [30], bySecond := [0],
    byEaster := some (-1), includeDtstart := some true,
    localTzid := some .europeLondon }

set_option maxRecDepth 4096 in
/-- Witness for C3: the sample descriptor renders to the expected text —
LOCAL-TZID and X-INCLUDE-DTSTART under their literal key names with the
TRUE vocabulary — and parsing that text back reproduces the descriptor. -/
theorem claim_c3_witness :
    render sampleDescriptor = str
      "FREQ=DAILY;INTERVAL=2;COUNT=3;UNTIL=20230107T100000;WKST=MO;BYSETPOS=1,-2;BYMONTH=1,12;BYMONTHDAY=-31,5;BYYEARDAY=100;BYWEEKNO=-5;BYDAY=TU,2FR,-1MO;BYHOUR=9,15;BYMINUTE=30;BYSECOND=0;BYEASTER=-1;X-INCLUDE-DTSTART=TRUE;LOCAL-TZID=Europe/London" ∧
    rruleFromContentLine ⟨none, render sampleDescriptor⟩ =
      .ok { sampleDescriptor with byNMonthDay := [] } := by
  constructor
  · rfl
  · exact claim_c3 sampleDescriptor (by decide) (by decide) (by decide)
      (by decide) (by decide) (by decide) (by decide) (by decide)
      (fun dt h => by
        have h2 : some (⟨⟨2023, 1, 7, 10, 0, 0⟩,
            ZoneInfo.zoned .europeLondon⟩ : MDateTime) = some dt := h
        obtain rfl := Option.some.inj h2
        exact ⟨by decide, by decide, by decide⟩)

end RRuleSpec
